import Mathlib

/-!
Verification development for the polyglot stream export engine
(streaming CSV / JSON / XML / Parquet exporters plus the HTTP job
coordinator).  JavaScript values flowing from the database driver are
embedded as a closed tree type `JVal`; each writer's per-value logic is
translated function-by-function from the source files
(`streaming/csvWriter.js`, `streaming/jsonWriter.js`,
`streaming/xmlWriter.js`, `streaming/parquetWriter.js`,
`routes/exports.js`).  Strings are modelled as `List Char`.
-/

namespace PolyglotExport

/-! ## Characters written via their code points (quote, apostrophe, braces, backslash) -/

def quoteC : Char := Char.ofNat 34

def aposC : Char := Char.ofNat 39

def bslashC : Char := Char.ofNat 92

def lbraceC : Char := Char.ofNat 123

def rbraceC : Char := Char.ofNat 125

/-- Model of the JavaScript `str.replace(/c/g, rep)` call for a
single-character pattern `c`: every occurrence of `c` is replaced by `rep`. -/
def replaceChar (c : Char) (rep : List Char) : List Char → List Char
  | [] => []
  | a :: rest => (if a = c then rep else [a]) ++ replaceChar c rep rest

/-! ## Row values

A value delivered by the database driver is one of: `null`, boolean,
integer (bigints and JSONB integers), string (VARCHAR, and NUMERIC/DECIMAL
columns, which the driver delivers as fixed-point digit strings), or a
nested JSONB structure (array / object).  `JArr`/`JObj` are the spine of
nested arrays and objects; an absent field of a row is JavaScript
`undefined`, modelled as `Option.none` at the row-lookup boundary. -/

mutual
inductive JVal where
  | vnull
  | vbool (b : Bool)
  | vint (n : Int)
  | vstr (s : List Char)
  | varr (xs : JArr)
  | vobj (kvs : JObj)
deriving DecidableEq, Repr

inductive JArr where
  | anil
  | acons (v : JVal) (tl : JArr)
deriving DecidableEq, Repr

inductive JObj where
  | onil
  | ocons (k : List Char) (v : JVal) (tl : JObj)
deriving DecidableEq, Repr
end

/-- A row is a finite map from source column names to values.
`rowGet` models the JavaScript member access `row[source]`:
a name that is not present yields `undefined` (`none`). -/
def rowGet {α : Type} (row : List (List Char × α)) (name : List Char) : Option α :=
  (row.find? (fun p => p.1 = name)).map (fun p => p.2)

/-- `{source, target}` column mapping (spec §3, used verbatim by all writers). -/
structure ColumnMapping where
  source : List Char
  target : List Char
deriving DecidableEq, Repr

/-! ## Decimal digit strings (model of JavaScript `String(n)` for integers) -/

def digitChar (n : Nat) : Char := Char.ofNat (48 + n)

def isDigitC (c : Char) : Bool := 48 ≤ c.toNat && c.toNat ≤ 57

def natCharsAux : Nat → Nat → List Char
  | 0, _ => []
  | f + 1, n => if n < 10 then [digitChar n] else natCharsAux f (n / 10) ++ [digitChar (n % 10)]

/-- Decimal digits of a natural number, as JavaScript `String(n)` renders it. -/
def natChars (n : Nat) : List Char := natCharsAux (n + 1) n

/-- JavaScript `String(n)` for an integer. -/
def intChars (n : Int) : List Char :=
  if n < 0 then '-' :: natChars n.natAbs else natChars n.toNat

/-- JavaScript `String(v)` for a scalar (never called on objects/arrays by
the writers; the object branches call `JSON.stringify` instead). -/
def jsStringScalar : JVal → List Char
  | .vnull => ['n', 'u', 'l', 'l']
  | .vbool true => ['t', 'r', 'u', 'e']
  | .vbool false => ['f', 'a', 'l', 's', 'e']
  | .vint n => intChars n
  | .vstr s => s
  | .varr _ => []
  | .vobj _ => []

/-! ## Model of `JSON.stringify`

Used by the CSV writer for nested JSONB (`JSON.stringify(value)`), by the
JSON writer for whole records, and by the Parquet writer for nested
values.  String characters are escaped exactly as `JSON.stringify` does:
quote and backslash get a backslash, the five named control escapes are
used, remaining control characters become `\u00xx` (lowercase hex). -/

def hexDigitChar (n : Nat) : Char :=
  if n < 10 then Char.ofNat (48 + n) else Char.ofNat (87 + n)

def escJsonChar (c : Char) : List Char :=
  if c = quoteC then [bslashC, quoteC]
  else if c = bslashC then [bslashC, bslashC]
  else if c = Char.ofNat 8 then [bslashC, 'b']
  else if c = Char.ofNat 9 then [bslashC, 't']
  else if c = Char.ofNat 10 then [bslashC, 'n']
  else if c = Char.ofNat 12 then [bslashC, 'f']
  else if c = Char.ofNat 13 then [bslashC, 'r']
  else if c.toNat < 32 then
    [bslashC, 'u', '0', '0', hexDigitChar (c.toNat / 16), hexDigitChar (c.toNat % 16)]
  else [c]

def serStrBody : List Char → List Char
  | [] => []
  | c :: rest => escJsonChar c ++ serStrBody rest

/-- `JSON.stringify` of a string: quote, escaped body, quote. -/
def serStr (s : List Char) : List Char := quoteC :: serStrBody s ++ [quoteC]

mutual
/-- `JSON.stringify` of a value. -/
def jsonSer : JVal → List Char
  | .vnull => ['n', 'u', 'l', 'l']
  | .vbool true => ['t', 'r', 'u', 'e']
  | .vbool false => ['f', 'a', 'l', 's', 'e']
  | .vint n => intChars n
  | .vstr s => serStr s
  | .varr xs => '[' :: serElems xs ++ [']']
  | .vobj kvs => lbraceC :: serMembers kvs ++ [rbraceC]

/-- Array elements, comma-separated. -/
def serElems : JArr → List Char
  | .anil => []
  | .acons x .anil => jsonSer x
  | .acons x (.acons y rest) => jsonSer x ++ ',' :: serElems (.acons y rest)

/-- Object members `"key":value`, comma-separated. -/
def serMembers : JObj → List Char
  | .onil => []
  | .ocons k v .onil => serStr k ++ ':' :: jsonSer v
  | .ocons k v (.ocons k2 v2 rest) =>
      (serStr k ++ ':' :: jsonSer v) ++ ',' :: serMembers (.ocons k2 v2 rest)
end

/-! ## CSV writer (`streaming/csvWriter.js`)

`streamToCSV` issues one plain streamed query (`client.query(query)`) and
reacts to per-row events; there is no `BEGIN`, no cursor and no rollback
in this writer.  Per value (lines 20-34):
`row[source]` truthy and `typeof value === 'object'` (nested JSONB)
is `JSON.stringify`ed; otherwise `value !== null ? String(value) : ''`.
Note that an absent source gives `undefined`, and `undefined !== null`,
so `String(undefined)` = `"undefined"` is emitted. -/

def csvCellRaw : Option JVal → List Char
  | some (.varr xs) => jsonSer (.varr xs)
  | some (.vobj kvs) => jsonSer (.vobj kvs)
  | some .vnull => []
  | none => ['u', 'n', 'd', 'e', 'f', 'i', 'n', 'e', 'd']
  | some (.vbool b) => jsStringScalar (.vbool b)
  | some (.vint n) => jsStringScalar (.vint n)
  | some (.vstr s) => jsStringScalar (.vstr s)

/-- Lines 29-33: quote-wrap when the value contains the delimiter, the
quote character or a newline; embedded quotes are doubled. -/
def csvEscapeCell (s : List Char) : List Char :=
  if s.contains ',' || s.contains quoteC || s.contains '\n' then
    quoteC :: replaceChar quoteC [quoteC, quoteC] s ++ [quoteC]
  else s

def csvField (row : List (List Char × JVal)) (c : ColumnMapping) : List Char :=
  csvEscapeCell (csvCellRaw (rowGet row c.source))

/-- One CSV data line (line 20-35: mapped fields joined by `,`). -/
def csvLine (cm : List ColumnMapping) (row : List (List Char × JVal)) : List Char :=
  List.intercalate [','] (cm.map (csvField row))

/-- Header line (line 9): target names joined by `,`, newline-terminated. -/
def csvHeader (cm : List ColumnMapping) : List Char :=
  List.intercalate [','] (cm.map (fun c => c.target)) ++ ['\n']

/-- The row-event loop (lines 16-53): each row appends its line and a
newline to `lineBuffer`; every 1000th row the buffer is flushed as one
sink write; at the end a non-empty buffer is flushed.  Returns the list
of sink writes after the header write. -/
def csvRowsWrites (cm : List ColumnMapping) :
    List (List (List Char × JVal)) → Nat → List Char → List (List Char)
  | [], _, buf => if buf.isEmpty then [] else [buf]
  | r :: rest, batchCount, buf =>
      let buf2 := buf ++ csvLine cm r ++ ['\n']
      let n2 := batchCount + 1
      if n2 % 1000 = 0 then buf2 :: csvRowsWrites cm rest n2 []
      else csvRowsWrites cm rest n2 buf2

/-- All sink writes of `streamToCSV`.  The `batchSize` parameter is part
of the JavaScript signature but is never read by the function body. -/
def csvWrites (cm : List ColumnMapping) (rows : List (List (List Char × JVal)))
    (_batchSize : Nat) : List (List Char) :=
  csvHeader cm :: csvRowsWrites cm rows 0 []

/-- The byte stream `streamToCSV` hands to the sink. -/
def csvOutput (cm : List ColumnMapping) (rows : List (List (List Char × JVal)))
    (batchSize : Nat) : List Char :=
  (csvWrites cm rows batchSize).flatten

/-! ## XML writer (`streaming/xmlWriter.js`) -/

/-- Lines 111-118: chained global replaces, ampersand first. -/
def escapeXml (s : List Char) : List Char :=
  replaceChar aposC ['&', 'a', 'p', 'o', 's', ';']
    (replaceChar quoteC ['&', 'q', 'u', 'o', 't', ';']
      (replaceChar '>' ['&', 'g', 't', ';']
        (replaceChar '<' ['&', 'l', 't', ';']
          (replaceChar '&' ['&', 'a', 'm', 'p', ';'] s))))

def selfCloseTag (name : List Char) : List Char := '<' :: name ++ ['/', '>']

def openTag (name : List Char) : List Char := '<' :: name ++ ['>']

def closeTag (name : List Char) : List Char := '<' :: '/' :: name ++ ['>']

mutual
/-- Lines 77-106, `objectToXml(obj, elementName)`: called by the writer
only on values with `typeof === 'object'` (nested arrays/objects, and
`null` for array items).  `null` renders self-closing; an array renders
its items; an object renders one element per key.  The scalar cases are
unreachable from the call sites (both callers test `typeof` first). -/
def objectToXml : JVal → List Char → List Char
  | .vnull, name => selfCloseTag name
  | .varr xs, name => openTag name ++ xmlItems xs ++ closeTag name
  | .vobj kvs, name => openTag name ++ xmlEntries kvs ++ closeTag name
  | .vbool b, name => openTag name ++ escapeXml (jsStringScalar (.vbool b)) ++ closeTag name
  | .vint n, name => openTag name ++ escapeXml (jsStringScalar (.vint n)) ++ closeTag name
  | .vstr s, name => openTag name ++ escapeXml (jsStringScalar (.vstr s)) ++ closeTag name

/-- Lines 84-91: array items; `typeof item === 'object'` (nested or null)
recurses, scalars are escaped text inside `<item>`. -/
def xmlItems : JArr → List Char
  | .anil => []
  | .acons item tl =>
      (match item with
        | .vnull => objectToXml .vnull ['i', 't', 'e', 'm']
        | .varr xs => objectToXml (.varr xs) ['i', 't', 'e', 'm']
        | .vobj kvs => objectToXml (.vobj kvs) ['i', 't', 'e', 'm']
        | v => openTag ['i', 't', 'e', 'm'] ++ escapeXml (jsStringScalar v)
            ++ closeTag ['i', 't', 'e', 'm']) ++ xmlItems tl

/-- Lines 92-102: object entries; null/undefined values render
self-closing, nested values recurse, scalars are escaped text. -/
def xmlEntries : JObj → List Char
  | .onil => []
  | .ocons k v tl =>
      (match v with
        | .vnull => selfCloseTag k
        | .varr xs => objectToXml (.varr xs) k
        | .vobj kvs => objectToXml (.vobj kvs) k
        | sv => openTag k ++ escapeXml (jsStringScalar sv) ++ closeTag k) ++ xmlEntries tl
end

/-- Lines 59-68 of `buildXmlRecord`: one element per mapped column;
`value === null || value === undefined` renders self-closing, nested
values go through `objectToXml`, scalars are escaped text. -/
def xmlField (target : List Char) : Option JVal → List Char
  | none => selfCloseTag target
  | some .vnull => selfCloseTag target
  | some (.varr xs) => objectToXml (.varr xs) target
  | some (.vobj kvs) => objectToXml (.vobj kvs) target
  | some sv => openTag target ++ escapeXml (jsStringScalar sv) ++ closeTag target

/-- Lines 56-72, `buildXmlRecord(columnMap, row)`. -/
def buildXmlRecord (cm : List ColumnMapping) (row : List (List Char × JVal)) : List Char :=
  openTag ['r', 'e', 'c', 'o', 'r', 'd']
    ++ (cm.map (fun c => xmlField c.target (rowGet row c.source))).flatten
    ++ closeTag ['r', 'e', 'c', 'o', 'r', 'd']

/-- The full driver row-value domain as the XML writer receives it:
either a JSONB value (`JVal`: null, boolean, integer, string, nested
structure) or a timestamp column, which the pg driver delivers as a
JavaScript `Date` object (e.g. the dataset's `created_at`).  A `Date`
is not a JSONB value and is kept separate from `JVal` because the
writers treat it specially: it is truthy with `typeof === 'object'`. -/
inductive RVal where
  | rv (v : JVal)
  | rdate (ms : Int)
deriving DecidableEq, Repr

/-- Lines 59-68 of `buildXmlRecord` over the full driver value domain
including timestamps.  A `Date` is neither `null` nor `undefined` and
has `typeof 'object'`, so it falls into the `objectToXml(value, target)`
branch; there it is not null and not an `Array`, and `Object.entries` of
a `Date` is empty (a `Date` has no own enumerable properties), so the
for-of loop body never runs: the element is emitted with empty content
and the timestamp value is silently dropped. -/
def xmlFieldR (target : List Char) : Option RVal → List Char
  | none => selfCloseTag target
  | some (.rv .vnull) => selfCloseTag target
  | some (.rv (.varr xs)) => objectToXml (.varr xs) target
  | some (.rv (.vobj kvs)) => objectToXml (.vobj kvs) target
  | some (.rdate _) => openTag target ++ closeTag target
  | some (.rv sv) => openTag target ++ escapeXml (jsStringScalar sv) ++ closeTag target

/-- `buildXmlRecord` over rows that may carry timestamp columns. -/
def buildXmlRecordR (cm : List ColumnMapping) (row : List (List Char × RVal)) : List Char :=
  openTag ['r', 'e', 'c', 'o', 'r', 'd']
    ++ (cm.map (fun c => xmlFieldR c.target (rowGet row c.source))).flatten
    ++ closeTag ['r', 'e', 'c', 'o', 'r', 'd']

/-! ## Cursor batching

The XML / JSON / Parquet writers fetch `FETCH batchSize FROM cursor`
repeatedly until a fetch returns zero rows.  `chunksAux` is that loop on
an in-memory dataset (fuel = dataset length bounds the iteration count). -/

def chunksAux {α : Type} : Nat → Nat → List α → List (List α)
  | 0, _, _ => []
  | f + 1, b, l =>
      if b = 0 then []
      else if l.isEmpty then []
      else l.take b :: chunksAux f b (l.drop b)

/-- The successive non-empty row batches a cursor with fetch size `b`
delivers over dataset `l`. -/
def chunks {α : Type} (b : Nat) (l : List α) : List (List α) :=
  chunksAux l.length b l

/-! ## XML writer output (`streamToXML`, lines 5-50) -/

def xmlPrologue : List Char :=
  "<?xml version=\x221.0\x22 encoding=\x22UTF-8\x22?>\n<records>\n".data

def xmlEpilogue : List Char := "</records>".data

/-- Lines 26-33: one batch becomes one sink write, each record
newline-terminated. -/
def xmlBatchStr (cm : List ColumnMapping) (batch : List (List (List Char × JVal))) :
    List Char :=
  (batch.map (fun r => buildXmlRecord cm r ++ ['\n'])).flatten

/-- All sink writes of `streamToXML` on the success path: prologue,
one write per fetched batch, closing root tag. -/
def xmlWrites (cm : List ColumnMapping) (rows : List (List (List Char × JVal)))
    (batchSize : Nat) : List (List Char) :=
  xmlPrologue :: (chunks batchSize rows).map (xmlBatchStr cm) ++ [xmlEpilogue]

def xmlOutput (cm : List ColumnMapping) (rows : List (List (List Char × JVal)))
    (batchSize : Nat) : List Char :=
  (xmlWrites cm rows batchSize).flatten

/-! ## JSON writer (`streaming/jsonWriter.js`, `streamToJSON`, lines 5-58) -/

/-- Lines 29-32: the record object, `jsonObj[target] = row[source]`.
`JSON.stringify` omits a key whose value is `undefined` (absent source),
so only the defined fields survive. -/
def definedFields (fields : List (List Char × Option JVal)) : List (List Char × JVal) :=
  fields.filterMap (fun p => p.2.map (fun v => (p.1, v)))

def toJObj : List (List Char × JVal) → JObj
  | [] => .onil
  | (k, v) :: rest => .ocons k v (toJObj rest)

/-- `JSON.stringify(jsonObj)` for one row (lines 29-37). -/
def jsonRecord (cm : List ColumnMapping) (row : List (List Char × JVal)) : List Char :=
  jsonSer (.vobj (toJObj (definedFields
    (cm.map (fun c => (c.target, rowGet row c.source))))))

/-- Lines 27-39: rows of one batch appended to `jsonBatch`, the first row
overall carrying no comma separator.  `first` is the `firstRow` flag at
batch entry. -/
def jsonSeq (cm : List ColumnMapping) :
    List (List (List Char × JVal)) → Bool → List Char
  | [], _ => []
  | r :: rest, first =>
      (if first then [] else [',']) ++ jsonRecord cm r ++ jsonSeq cm rest false

/-- The batch loop (lines 18-42): one sink write per fetched batch,
threading the `firstRow` flag. -/
def jsonBatchWrites (cm : List ColumnMapping) :
    List (List (List (List Char × JVal))) → Bool → List (List Char)
  | [], _ => []
  | batch :: rest, first =>
      jsonSeq cm batch first :: jsonBatchWrites cm rest (first && batch.isEmpty)

/-- All sink writes of `streamToJSON` on the success path:
`[`, one write per batch, `]`. -/
def jsonWrites (cm : List ColumnMapping) (rows : List (List (List Char × JVal)))
    (batchSize : Nat) : List (List Char) :=
  ['['] :: jsonBatchWrites cm (chunks batchSize rows) true ++ [[']']]

def jsonOutput (cm : List ColumnMapping) (rows : List (List (List Char × JVal)))
    (batchSize : Nat) : List Char :=
  (jsonWrites cm rows batchSize).flatten

/-! ## Transaction / cursor behaviour of the writers (claim about §4.1)

`streamToXML`, `streamToJSON` and `streamToParquet` share the same
skeleton: `BEGIN`, `DECLARE ... CURSOR`, a `FETCH` loop, then
`CLOSE` + `COMMIT` on success; on a thrown error, `ROLLBACK` inside its
own try/catch (a rollback failure is swallowed) and the original error is
rethrown.  `streamToCSV` has none of this: it issues one plain streamed
query and never opens a transaction.

The fetch loop is driven by a script of fetch responses
(`Except Err rows`); sink writes are fire-and-forget in the JavaScript
(`outputStream.write` with its return value and error events never
consulted), which the model mirrors by ignoring the `sinkFails`
parameter. -/

inductive DbCmd where
  | beginTx
  | declareCur
  | fetchCmd (n : Nat)
  | closeCur
  | commit
  | rollback
  | simpleQuery
deriving DecidableEq, Repr

/-- One `FETCH` round trip after another until an empty batch or an
error.  Returns the issued fetch commands and the loop outcome.  An
exhausted script behaves as a cursor that is out of rows. -/
def fetchLoop (Err : Type) (b : Nat) :
    List (Except Err (List (List (List Char × JVal)))) →
      List DbCmd × Except Err Unit
  | [] => ([.fetchCmd b], .ok ())
  | resp :: rest =>
      match resp with
      | .error e => ([.fetchCmd b], .error e)
      | .ok [] => ([.fetchCmd b], .ok ())
      | .ok (_ :: _) =>
          let next := fetchLoop Err b rest
          (.fetchCmd b :: next.1, next.2)

/-- Database commands issued and outcome of one cursor-writer run
(`streamToXML` lines 10-49; `streamToJSON` lines 10-57 and
`streamToParquet` lines 61-107 are the same skeleton).  `rollbackFails`:
whether the `ROLLBACK` itself throws (its failure is swallowed by the
inner catch); `sinkFails`: whether sink writes fail (never observed). -/
def cursorWriterRun (Err : Type) (b : Nat)
    (script : List (Except Err (List (List (List Char × JVal)))))
    (rollbackFails sinkFails : Bool) : List DbCmd × Except Err Unit :=
  let loop := fetchLoop Err b script
  match loop.2 with
  | .ok () => (.beginTx :: .declareCur :: loop.1 ++ [.closeCur, .commit], .ok ())
  | .error e =>
      let _ := rollbackFails
      let _ := sinkFails
      (.beginTx :: .declareCur :: loop.1 ++ [.rollback], .error e)

def xmlWriterRun (Err : Type) (b : Nat)
    (script : List (Except Err (List (List (List Char × JVal)))))
    (rollbackFails sinkFails : Bool) : List DbCmd × Except Err Unit :=
  cursorWriterRun Err b script rollbackFails sinkFails

def jsonWriterRun (Err : Type) (b : Nat)
    (script : List (Except Err (List (List (List Char × JVal)))))
    (rollbackFails sinkFails : Bool) : List DbCmd × Except Err Unit :=
  cursorWriterRun Err b script rollbackFails sinkFails

/-- `streamToParquet` (lines 46 and 61-107): the sample `SELECT ... LIMIT 1`
query first, then the same cursor skeleton as the XML/JSON writers. -/
def parquetWriterRun (Err : Type) (b : Nat)
    (script : List (Except Err (List (List (List Char × JVal)))))
    (rollbackFails sinkFails : Bool) : List DbCmd × Except Err Unit :=
  (.simpleQuery :: (cursorWriterRun Err b script rollbackFails sinkFails).1,
    (cursorWriterRun Err b script rollbackFails sinkFails).2)

/-- Database commands issued by `streamToCSV` (lines 12-13): one plain
streamed query; no transaction, no cursor.  On a query-stream error the
promise rejects with that error directly — there is no rollback.  The
`sinkFails` parameter is ignored exactly as in the cursor writers. -/
def csvWriterRun (Err : Type) (queryErr : Option Err) (sinkFails : Bool) :
    List DbCmd × Except Err Unit :=
  let _ := sinkFails
  ([.simpleQuery], match queryErr with
    | some e => .error e
    | none => .ok ())

/-! ## Parquet writer schema inference (`streaming/parquetWriter.js`) -/

/-- The value domain seen by the Parquet schema inference: JavaScript
`typeof` distinguishes numbers (with `Number.isInteger` splitting
integral from fractional; every finite double is a rational, modelled by
`Rat`), booleans, `Date` instances, and everything else (strings, null,
nested structures). -/
inductive PqVal where
  | pnull
  | pnum (q : Rat)
  | pbool (b : Bool)
  | pdate (ms : Int)
  | pstr (s : List Char)
  | pnested (j : JVal)
deriving DecidableEq, Repr

inductive PqType where
  | UTF8
  | INT64
  | DOUBLE
  | BOOLEAN
  | TIMESTAMP_MILLIS
deriving DecidableEq, Repr

/-- Lines 14-30 of `createParquetSchema`: default `UTF8`; when the source
is present in the sample, `typeof value === 'number'` yields `INT64` for
integral values and `DOUBLE` otherwise, booleans yield `BOOLEAN`, `Date`
instances yield `TIMESTAMP_MILLIS`; anything else (null, strings, nested
structures) stays `UTF8`. -/
def pqInferType : Option PqVal → PqType
  | none => .UTF8
  | some (.pnum q) => if q.isInt then .INT64 else .DOUBLE
  | some (.pbool _) => .BOOLEAN
  | some (.pdate _) => .TIMESTAMP_MILLIS
  | some .pnull => .UTF8
  | some (.pstr _) => .UTF8
  | some (.pnested _) => .UTF8

/-- Lines 7-36, `createParquetSchema(columnMap, sampleData)`: one typed
column per mapping, in mapping order. -/
def createParquetSchema (cm : List ColumnMapping)
    (sampleData : List (List Char × PqVal)) : List (List Char × PqType) :=
  cm.map (fun c => (c.target, pqInferType (rowGet sampleData c.source)))

/-- Lines 42-50 of `streamToParquet`: the schema used for the whole run
is created once, from the single row fetched by the initial
`SELECT ... LIMIT 1` (`sampleResult.rows[0] || {}` — the empty sample when
the dataset has no rows), before the cursor loop starts; the loop
(lines 61-96) appends rows and never recreates the schema. -/
def streamToParquetSchema (cm : List ColumnMapping)
    (rows : List (List (List Char × PqVal))) : List (List Char × PqType) :=
  createParquetSchema cm (rows.headD [])

/-! ## Export job coordinator (`routes/exports.js`) -/

inductive JobStatus where
  | pending
  | processing
  | completed
  | failed
deriving DecidableEq, Repr

structure ExportJob where
  format : List Char
  columns : List ColumnMapping
  compression : Option (List Char)
  status : JobStatus
  createdAt : Nat
  startedAt : Option Nat
  completedAt : Option Nat
  errMsg : Option (List Char)
deriving DecidableEq, Repr

inductive ValidationResult where
  | ok
  | invalidFormat
  | invalidColumns
  | invalidCompression
  | unsupportedCompression
deriving DecidableEq, Repr

/-- A raw `{source, target}` pair from the request body; the route
requires both fields to be non-empty strings. -/
structure RawColumn where
  source : List Char
  target : List Char
deriving DecidableEq, Repr

/-- A parsed request body.  `format = none` models an absent field,
`columns = none` models a body whose `columns` is not an array;
`compression = none` models an absent field (JavaScript truthiness also
treats an empty string like an absent one, hence the emptiness tests). -/
structure ExportRequest where
  format : Option (List Char)
  columns : Option (List RawColumn)
  compression : Option (List Char)
deriving DecidableEq, Repr

def fmtCsv : List Char := ['c', 's', 'v']

def fmtJson : List Char := ['j', 's', 'o', 'n']

def fmtXml : List Char := ['x', 'm', 'l']

def fmtParquet : List Char := ['p', 'a', 'r', 'q', 'u', 'e', 't']

def cmpGzip : List Char := ['g', 'z', 'i', 'p']

/-- `validateExportRequest` (lines 258-296): format whitelist, non-empty
columns array of non-empty string pairs, `compression` either falsy or
`gzip`, and `gzip` rejected for `parquet`.  Checks run in source order,
first failure wins. -/
def validateExportRequest (req : ExportRequest) : ValidationResult :=
  match req.format with
  | none => .invalidFormat
  | some f =>
      if ¬(f = fmtCsv ∨ f = fmtJson ∨ f = fmtXml ∨ f = fmtParquet) then .invalidFormat
      else match req.columns with
        | none => .invalidColumns
        | some cols =>
            if cols.isEmpty then .invalidColumns
            else if cols.any (fun c => c.source.isEmpty || c.target.isEmpty) then
              .invalidColumns
            else match req.compression with
              | none =>
                  .ok
              | some comp =>
                  if ¬comp.isEmpty ∧ comp ≠ cmpGzip then .invalidCompression
                  else if comp = cmpGzip ∧ f = fmtParquet then .unsupportedCompression
                  else .ok

/-- `POST /exports` (lines 299-320): after validation the job is stored
with status `pending`; on validation failure no job is created and the
registry is untouched. -/
def createExport (req : ExportRequest)
    (jobs : List (List Char × ExportJob)) (newId : List Char) (now : Nat) :
    List (List Char × ExportJob) × Option ExportJob :=
  match validateExportRequest req with
  | .ok =>
      match req.format, req.columns with
      | some f, some cols =>
          let job : ExportJob :=
            { format := f
              columns := cols.map (fun c => ⟨c.source, c.target⟩)
              compression :=
                match req.compression with
                | some comp => if comp.isEmpty then none else some comp
                | none => none
              status := .pending
              createdAt := now
              startedAt := none
              completedAt := none
              errMsg := none }
          (jobs ++ [(newId, job)], some job)
      | _, _ => (jobs, none)
  | _ => (jobs, none)

inductive DownloadResult where
  | notFound
  | streamed
  | errorPayload (msg : List Char)
deriving DecidableEq, Repr

def setJob (jobs : List (List Char × ExportJob)) (id : List Char) (j : ExportJob) :
    List (List Char × ExportJob) :=
  jobs.map (fun p => if p.1 = id then (id, j) else p)

/-- `GET /exports/:exportId/download` (lines 334-381).  The route looks
the job up (404 when absent) and then — without inspecting `job.status` —
sets it to `processing`, runs the format pipeline, and marks `completed`
or `failed`.  `pipelineOk` abstracts whether the pipeline throws;
`errText` is the thrown message.  The returned fields are: the updated
registry, the HTTP result, whether the pipeline was executed at all, and
the sequence of statuses assigned to the job during this invocation. -/
def download (jobs : List (List Char × ExportJob)) (exportId : List Char)
    (pipelineOk : Bool) (errText : List Char) (now : Nat) :
    List (List Char × ExportJob) × DownloadResult × Bool × List JobStatus :=
  match rowGet jobs exportId with
  | none => (jobs, .notFound, false, [])
  | some job =>
      let j1 : ExportJob := { job with status := .processing, startedAt := some now }
      if pipelineOk then
        let j2 : ExportJob := { j1 with status := .completed, completedAt := some now }
        (setJob jobs exportId j2, .streamed, true, [.processing, .completed])
      else
        let j2 : ExportJob := { j1 with status := .failed, errMsg := some errText }
        (setJob jobs exportId j2, .errorPayload errText, true, [.processing, .failed])

/-! ## Claim C1: job state machine and at-most-one execution -/

def jobIdA : List Char := ['a']

/-- A job that already reached the terminal status `completed`. -/
def jobCompletedA : ExportJob :=
  { format := fmtCsv
    columns := [⟨['i', 'd'], ['i', 'd']⟩]
    compression := none
    status := .completed
    createdAt := 0
    startedAt := some 1
    completedAt := some 2
    errMsg := none }

/-- C1 counterexample: invoking download on a job whose status is the
terminal `completed` (hence not `pending`) is *not* rejected — the
pipeline runs again (`true` below) and the very first status assigned is
`processing`, i.e. a transition out of a terminal state.  This falsifies
both the at-most-one-execution clause and the no-exit-from-terminal
clause of the claim. -/
theorem c1_counterexample :
    jobCompletedA.status = .completed ∧
    (download [(jobIdA, jobCompletedA)] jobIdA true [] 5).2.2.1 = true ∧
    (download [(jobIdA, jobCompletedA)] jobIdA true [] 5).2.2.2.head? =
      some .processing := by decide

/-- C1 (amended): the download route rejects only unknown job ids (404,
registry untouched, pipeline not run).  For any job that exists — whatever
its status, including the terminal ones — it unconditionally assigns
`processing`, executes the pipeline, and then assigns `completed` on
success or `failed` on error; so each single invocation steps
`processing` then one terminal status, but a job is never protected from
re-execution and terminal states are not sticky. -/
theorem c1_download_lifecycle (jobs : List (List Char × ExportJob))
    (id : List Char) (ok : Bool) (err : List Char) (now : Nat) :
    (rowGet jobs id = none →
      download jobs id ok err now = (jobs, .notFound, false, [])) ∧
    (∀ j, rowGet jobs id = some j →
      (download jobs id ok err now).2.2.1 = true ∧
      (download jobs id ok err now).2.2.2 =
        [.processing, if ok then .completed else .failed]) := by
  constructor
  · intro h
    simp [download, h]
  · intro j h
    cases ok <;> simp [download, h]

/-- Witness for `c1_download_lifecycle` at the concrete one-job registry. -/
theorem c1_download_lifecycle_witness :
    (download [(jobIdA, jobCompletedA)] jobIdA true [] 5).2.2.1 = true ∧
    (download [(jobIdA, jobCompletedA)] jobIdA true [] 5).2.2.2 =
      [.processing, .completed] := by
  have h := (c1_download_lifecycle [(jobIdA, jobCompletedA)] jobIdA true [] 5).2
    jobCompletedA (by decide)
  exact ⟨h.1, h.2⟩

/-! ## Claim C2: job creation validation -/

/-- C2: for any request with a whitelisted format, a non-empty columns
list of non-empty string pairs, and compression either absent or `gzip`
on a non-parquet format, validation succeeds and a `pending` job is
appended to the registry; and for such a columns list, `gzip` + `parquet`
always yields `UnsupportedCompression` with the registry untouched and no
job created. -/
theorem c2_creation (req : ExportRequest) (jobs : List (List Char × ExportJob))
    (newId : List Char) (now : Nat) (f : List Char) (cols : List RawColumn)
    (hf : req.format = some f)
    (hcols : req.columns = some cols)
    (hne : ¬cols.isEmpty)
    (hcf : ∀ c ∈ cols, ¬c.source.isEmpty ∧ ¬c.target.isEmpty) :
    ((f = fmtCsv ∨ f = fmtJson ∨ f = fmtXml ∨ f = fmtParquet) →
      (req.compression = none ∨ (req.compression = some cmpGzip ∧ f ≠ fmtParquet)) →
      validateExportRequest req = .ok ∧
      ∃ job, createExport req jobs newId now = (jobs ++ [(newId, job)], some job) ∧
        job.status = .pending) ∧
    (req.compression = some cmpGzip → f = fmtParquet →
      validateExportRequest req = .unsupportedCompression ∧
      createExport req jobs newId now = (jobs, none)) := by
  have hany : cols.any (fun c => c.source.isEmpty || c.target.isEmpty) = false := by
    simp only [List.any_eq_false]
    intro c hc
    have := hcf c hc
    simp [this.1, this.2]
  constructor
  · intro hfmt hcomp
    have hval : validateExportRequest req = .ok := by
      rcases hcomp with h | ⟨h, hnp⟩
      · simp only [validateExportRequest, hf, hcols, h]
        rw [if_neg (not_not_intro hfmt), if_neg hne, if_neg (by simp [hany])]
      · simp only [validateExportRequest, hf, hcols, h]
        rw [if_neg (not_not_intro hfmt), if_neg hne, if_neg (by simp [hany]),
          if_neg (by simp), if_neg (fun hx => hnp (And.right hx))]
    refine ⟨hval, ?_⟩
    rcases hcomp with h | ⟨h, _⟩
    · refine ⟨{ format := f
                columns := cols.map (fun c => ⟨c.source, c.target⟩)
                compression := none
                status := .pending
                createdAt := now
                startedAt := none
                completedAt := none
                errMsg := none }, ?_, rfl⟩
      simp [createExport, hval, hf, hcols, h]
    · refine ⟨{ format := f
                columns := cols.map (fun c => ⟨c.source, c.target⟩)
                compression := some cmpGzip
                status := .pending
                createdAt := now
                startedAt := none
                completedAt := none
                errMsg := none }, ?_, rfl⟩
      simp [createExport, hval, hf, hcols, h, cmpGzip]
  · intro hcomp hpq
    have hval : validateExportRequest req = .unsupportedCompression := by
      simp [validateExportRequest, hf, hcols, hpq, hne, hany, hcomp, cmpGzip, fmtParquet]
    exact ⟨hval, by simp [createExport, hval]⟩

/-- Witness for `c2_creation`: a csv + gzip request succeeds as `pending`,
and the same columns under parquet + gzip are rejected with
`UnsupportedCompression` and no job. -/
theorem c2_creation_witness :
    (validateExportRequest ⟨some fmtCsv, some [⟨['i', 'd'], ['i', 'd']⟩], some cmpGzip⟩ =
        .ok ∧
      ∃ job,
        createExport ⟨some fmtCsv, some [⟨['i', 'd'], ['i', 'd']⟩], some cmpGzip⟩ [] ['j'] 0 =
          ([(['j'], job)], some job) ∧ job.status = .pending) ∧
    validateExportRequest ⟨some fmtParquet, some [⟨['i', 'd'], ['i', 'd']⟩], some cmpGzip⟩ =
        .unsupportedCompression ∧
    createExport ⟨some fmtParquet, some [⟨['i', 'd'], ['i', 'd']⟩], some cmpGzip⟩ [] ['j'] 0 =
      ([], none) := by
  refine ⟨?_, ?_⟩
  · have h := (c2_creation ⟨some fmtCsv, some [⟨['i', 'd'], ['i', 'd']⟩], some cmpGzip⟩
      [] ['j'] 0 fmtCsv [⟨['i', 'd'], ['i', 'd']⟩] rfl rfl (by decide) (by decide)).1
      (Or.inl rfl) (Or.inr ⟨rfl, by decide⟩)
    rcases h with ⟨h1, job, h2, h3⟩
    exact ⟨h1, job, by simpa using h2, h3⟩
  · have h := (c2_creation ⟨some fmtParquet, some [⟨['i', 'd'], ['i', 'd']⟩], some cmpGzip⟩
      [] ['j'] 0 fmtParquet [⟨['i', 'd'], ['i', 'd']⟩] rfl rfl (by decide) (by decide)).2
      rfl rfl
    exact ⟨h.1, h.2⟩

/-! ## Claim C5: absent source vs null -/

def srcS : List Char := ['s']

def tgtT : List Char := ['t']

/-- C5 counterexample: a source name absent from the row is *not*
treated as null by every writer.  The CSV writer stringifies the
JavaScript `undefined` to the nine characters `undefined` while a null
value becomes the empty field; the JSON writer omits the target key for
an absent source (`JSON.stringify` drops `undefined` members) while a
null value is kept as `null`. -/
theorem c5_counterexample :
    csvField [] ⟨srcS, tgtT⟩ = ['u', 'n', 'd', 'e', 'f', 'i', 'n', 'e', 'd'] ∧
    csvField [(srcS, JVal.vnull)] ⟨srcS, tgtT⟩ = [] ∧
    csvField [] ⟨srcS, tgtT⟩ ≠ csvField [(srcS, JVal.vnull)] ⟨srcS, tgtT⟩ ∧
    jsonRecord [⟨srcS, tgtT⟩] [] = [lbraceC, rbraceC] ∧
    jsonRecord [⟨srcS, tgtT⟩] [(srcS, JVal.vnull)] =
      lbraceC :: serStr tgtT ++ ':' :: ['n', 'u', 'l', 'l'] ++ [rbraceC] ∧
    jsonRecord [⟨srcS, tgtT⟩] [] ≠ jsonRecord [⟨srcS, tgtT⟩] [(srcS, JVal.vnull)] := by
  decide

/-- C5 (amended): only the XML writer treats an absent source exactly
like a null value (both render the self-closing element).  The CSV
writer emits the literal text `undefined` for an absent source but the
empty field for null; the JSON writer drops the target key for an absent
source but keeps a `null` member for a null value; the Parquet schema
inference happens to give both the default UTF8 type. -/
theorem c5_absent_vs_null :
    (∀ target : List Char, xmlField target none = xmlField target (some .vnull)) ∧
    csvCellRaw none = ['u', 'n', 'd', 'e', 'f', 'i', 'n', 'e', 'd'] ∧
    csvCellRaw (some .vnull) = [] ∧
    (∀ (t : List Char) (rest : List (List Char × Option JVal)),
      definedFields ((t, none) :: rest) = definedFields rest) ∧
    (∀ (t : List Char) (rest : List (List Char × Option JVal)),
      definedFields ((t, some .vnull) :: rest) = (t, JVal.vnull) :: definedFields rest) ∧
    pqInferType none = pqInferType (some .pnull) := by
  refine ⟨fun _ => rfl, rfl, rfl, fun t rest => rfl, fun t rest => rfl, rfl⟩

/-! ## Claim C4: CSV quoting rule -/

/-- The value `O'Reilly, Inc.` from the spec's example. -/
def oreillyChars : List Char := ['O'] ++ [aposC] ++ "Reilly, Inc.".data

/-- C4: a stringified CSV cell is quote-wrapped (with embedded quote
characters doubled) precisely when it contains the comma delimiter, the
quote character, or a newline; and the value `O'Reilly, Inc.` is emitted
as `"O'Reilly, Inc."` (wrapped unchanged — it contains a comma but no
quote to double). -/
theorem c4_csv_quoting (v : Option JVal) :
    (((csvCellRaw v).contains ',' || (csvCellRaw v).contains quoteC ||
        (csvCellRaw v).contains '\n') = true →
      csvEscapeCell (csvCellRaw v) =
        quoteC :: replaceChar quoteC [quoteC, quoteC] (csvCellRaw v) ++ [quoteC]) ∧
    (((csvCellRaw v).contains ',' || (csvCellRaw v).contains quoteC ||
        (csvCellRaw v).contains '\n') = false →
      csvEscapeCell (csvCellRaw v) = csvCellRaw v) := by
  constructor
  · intro h
    rw [csvEscapeCell, if_pos h]
  · intro h
    rw [csvEscapeCell, if_neg (by rw [h]; simp)]

/-- Witness for `c4_csv_quoting`: the `O'Reilly, Inc.` example, wrapped
because of its comma, with the quote-doubling replace leaving it
unchanged (it contains no quote character). -/
theorem c4_csv_quoting_witness :
    csvEscapeCell (csvCellRaw (some (.vstr oreillyChars))) =
      quoteC :: oreillyChars ++ [quoteC] := by
  have h := (c4_csv_quoting (some (.vstr oreillyChars))).1 (by decide)
  have hrep : replaceChar quoteC [quoteC, quoteC] (csvCellRaw (some (.vstr oreillyChars))) =
      oreillyChars := by decide
  rw [h, hrep]

/-! ## Claim C8: Parquet schema inference -/

/-- C8: the Parquet schema is computed once from the first fetched row
(it does not depend on any later row), and the per-value inference maps
an integral number to INT64, a fractional number to DOUBLE, a boolean to
BOOLEAN, a `Date` to TIMESTAMP_MILLIS, and everything else — null,
strings, nested structures, or an absent source — to UTF8. -/
theorem c8_parquet_schema (cm : List ColumnMapping) (r : List (List Char × PqVal))
    (rest rest' : List (List (List Char × PqVal))) :
    streamToParquetSchema cm (r :: rest) = createParquetSchema cm r ∧
    streamToParquetSchema cm (r :: rest) = streamToParquetSchema cm (r :: rest') ∧
    (∀ q : Rat, q.isInt → pqInferType (some (.pnum q)) = .INT64) ∧
    (∀ q : Rat, ¬q.isInt → pqInferType (some (.pnum q)) = .DOUBLE) ∧
    (∀ b, pqInferType (some (.pbool b)) = .BOOLEAN) ∧
    (∀ ms, pqInferType (some (.pdate ms)) = .TIMESTAMP_MILLIS) ∧
    pqInferType (some .pnull) = .UTF8 ∧
    (∀ s, pqInferType (some (.pstr s)) = .UTF8) ∧
    (∀ j, pqInferType (some (.pnested j)) = .UTF8) ∧
    pqInferType none = .UTF8 := by
  refine ⟨rfl, rfl, ?_, ?_, fun _ => rfl, fun _ => rfl, rfl, fun _ => rfl, fun _ => rfl, rfl⟩
  · intro q hq
    simp [pqInferType, hq]
  · intro q hq
    simp [pqInferType, hq]

/-- The rational 1/2, written with explicit components so the kernel can
evaluate it. -/
def oneHalf : Rat := Rat.mk' 1 2 (by decide) (by decide)

/-- Witness for `c8_parquet_schema`: a concrete first row giving each
column kind, with the integral 3 inferred INT64 and the fractional 1/2
inferred DOUBLE. -/
theorem c8_parquet_schema_witness :
    streamToParquetSchema [⟨srcS, tgtT⟩] [[(srcS, PqVal.pbool true)]] =
        createParquetSchema [⟨srcS, tgtT⟩] [(srcS, PqVal.pbool true)] ∧
    pqInferType (some (.pnum (3 : Rat))) = .INT64 ∧
    pqInferType (some (.pnum oneHalf)) = .DOUBLE := by
  have h := c8_parquet_schema [⟨srcS, tgtT⟩] [(srcS, PqVal.pbool true)] [] []
  exact ⟨h.1, h.2.2.1 3 (by decide), h.2.2.2.1 oneHalf (by decide)⟩

/-! ## Claim C10: the emitted bytes do not depend on the batch size -/

theorem chunksAux_flatten {α : Type} :
    ∀ (f b : Nat) (l : List α), l.length ≤ f → 0 < b → (chunksAux f b l).flatten = l := by
  intro f
  induction f with
  | zero =>
      intro b l hl _
      have : l = [] := List.eq_nil_of_length_eq_zero (Nat.le_zero.mp hl)
      simp [this, chunksAux]
  | succ f ih =>
      intro b l hl hb
      rcases l with _ | ⟨a, tl⟩
      · simp [chunksAux]
      · rw [chunksAux, if_neg (Nat.pos_iff_ne_zero.mp hb), if_neg (by simp)]
        rw [List.flatten_cons, ih b ((a :: tl).drop b) ?_ hb, List.take_append_drop]
        have hlt : ((a :: tl).drop b).length < (a :: tl).length := by
          rw [List.length_drop]
          exact Nat.sub_lt (by simp) hb
        omega

theorem chunks_flatten {α : Type} (b : Nat) (l : List α) (hb : 0 < b) :
    (chunks b l).flatten = l :=
  chunksAux_flatten l.length b l (Nat.le_refl _) hb

theorem csvRowsWrites_flatten (cm : List ColumnMapping) :
    ∀ (rows : List (List (List Char × JVal))) (n : Nat) (buf : List Char),
      (csvRowsWrites cm rows n buf).flatten =
        buf ++ (rows.map (fun r => csvLine cm r ++ ['\n'])).flatten := by
  intro rows
  induction rows with
  | nil =>
      intro n buf
      by_cases h : buf.isEmpty
      · simp [csvRowsWrites, h, List.isEmpty_iff.mp h]
      · simp [csvRowsWrites, h]
  | cons r rest ih =>
      intro n buf
      rw [csvRowsWrites]
      by_cases h : (n + 1) % 1000 = 0
      · rw [if_pos h]
        simp [ih (n + 1) []]
      · rw [if_neg h, ih (n + 1) _]
        simp

/-- Canonical CSV byte stream: header then one newline-terminated line
per row, independent of the ignored batch size and of the 1000-row
flushing. -/
theorem csvOutput_canonical (cm : List ColumnMapping)
    (rows : List (List (List Char × JVal))) (b : Nat) :
    csvOutput cm rows b =
      csvHeader cm ++ (rows.map (fun r => csvLine cm r ++ ['\n'])).flatten := by
  rw [csvOutput, csvWrites, List.flatten_cons, csvRowsWrites_flatten]
  simp

theorem batches_map_flatten {α β : Type} (f : α → List β) :
    ∀ bs : List (List α),
      (bs.map (fun batch => (batch.map f).flatten)).flatten = (bs.flatten.map f).flatten := by
  intro bs
  induction bs with
  | nil => simp
  | cons b rest ih => simp [ih]

/-- Canonical XML byte stream: prologue, one newline-terminated record
per row, closing root tag — independent of the batch size. -/
theorem xmlOutput_canonical (cm : List ColumnMapping)
    (rows : List (List (List Char × JVal))) (b : Nat) (hb : 0 < b) :
    xmlOutput cm rows b =
      xmlPrologue ++ (rows.map (fun r => buildXmlRecord cm r ++ ['\n'])).flatten
        ++ xmlEpilogue := by
  rw [xmlOutput, xmlWrites]
  have hmap : xmlBatchStr cm =
      fun batch => (batch.map (fun r => buildXmlRecord cm r ++ ['\n'])).flatten :=
    funext (fun batch => rfl)
  simp only [List.flatten_cons, List.flatten_append, hmap]
  rw [batches_map_flatten, chunks_flatten b rows hb]
  simp

theorem jsonSeq_append (cm : List ColumnMapping)
    (b1 b2 : List (List (List Char × JVal))) :
    ∀ first, jsonSeq cm (b1 ++ b2) first =
      jsonSeq cm b1 first ++ jsonSeq cm b2 (first && b1.isEmpty) := by
  induction b1 with
  | nil => intro first; simp [jsonSeq]
  | cons r rest ih =>
      intro first
      simp [jsonSeq, ih false]

theorem jsonBatchWrites_flatten (cm : List ColumnMapping) :
    ∀ (batches : List (List (List (List Char × JVal)))) (first : Bool),
      (jsonBatchWrites cm batches first).flatten = jsonSeq cm batches.flatten first := by
  intro batches
  induction batches with
  | nil => intro first; simp [jsonBatchWrites, jsonSeq]
  | cons batch rest ih =>
      intro first
      rw [jsonBatchWrites, List.flatten_cons, ih, List.flatten_cons, jsonSeq_append]

/-- Canonical JSON byte stream: `[`, the comma-separated records, `]` —
independent of the batch size. -/
theorem jsonOutput_canonical (cm : List ColumnMapping)
    (rows : List (List (List Char × JVal))) (b : Nat) (hb : 0 < b) :
    jsonOutput cm rows b = '[' :: jsonSeq cm rows true ++ [']'] := by
  rw [jsonOutput, jsonWrites]
  simp only [List.flatten_cons, List.flatten_append, jsonBatchWrites_flatten]
  rw [chunks_flatten b rows hb]
  simp

/-- C10: for every dataset and column mapping and any two positive batch
sizes, each writer hands the identical byte sequence to the sink; the
CSV writer does not even read its batch-size parameter (its write list
is literally the same function of the rows for every batch size). -/
theorem c10_batch_size_independent (cm : List ColumnMapping)
    (rows : List (List (List Char × JVal))) (b1 b2 : Nat)
    (h1 : 0 < b1) (h2 : 0 < b2) :
    csvOutput cm rows b1 = csvOutput cm rows b2 ∧
    (∀ bA bB : Nat, csvWrites cm rows bA = csvWrites cm rows bB) ∧
    jsonOutput cm rows b1 = jsonOutput cm rows b2 ∧
    xmlOutput cm rows b1 = xmlOutput cm rows b2 := by
  refine ⟨rfl, fun bA bB => rfl, ?_, ?_⟩
  · rw [jsonOutput_canonical cm rows b1 h1, jsonOutput_canonical cm rows b2 h2]
  · rw [xmlOutput_canonical cm rows b1 h1, xmlOutput_canonical cm rows b2 h2]

/-- Witness for `c10_batch_size_independent`: a concrete three-row
dataset under batch sizes 1 and 2. -/
theorem c10_batch_size_independent_witness :
    jsonOutput [⟨srcS, tgtT⟩]
        [[(srcS, JVal.vint 1)], [(srcS, JVal.vint 2)], [(srcS, JVal.vint 3)]] 1 =
      jsonOutput [⟨srcS, tgtT⟩]
        [[(srcS, JVal.vint 1)], [(srcS, JVal.vint 2)], [(srcS, JVal.vint 3)]] 2 ∧
    xmlOutput [⟨srcS, tgtT⟩]
        [[(srcS, JVal.vint 1)], [(srcS, JVal.vint 2)], [(srcS, JVal.vint 3)]] 1 =
      xmlOutput [⟨srcS, tgtT⟩]
        [[(srcS, JVal.vint 1)], [(srcS, JVal.vint 2)], [(srcS, JVal.vint 3)]] 2 := by
  have h := c10_batch_size_independent [⟨srcS, tgtT⟩]
    [[(srcS, JVal.vint 1)], [(srcS, JVal.vint 2)], [(srcS, JVal.vint 3)]] 1 2
    (by decide) (by decide)
  exact ⟨h.2.2.1, h.2.2.2⟩

/-! ## Claim C3: transaction / rollback discipline of the writers -/

/-- C3 counterexample: the claim fails in two ways.  (1) The CSV writer
opens no transaction at all: its only database command is the plain
streamed query, and on a query error it propagates the error with no
rollback.  (2) Sink write failures are never observed by any writer
(`outputStream.write` is fire-and-forget), so a failing sink does not
trigger a rollback: the XML writer run below commits and reports success
even though every sink write failed. -/
theorem c3_counterexample :
    (csvWriterRun Unit none false).1 = [.simpleQuery] ∧
    DbCmd.beginTx ∉ (csvWriterRun Unit none false).1 ∧
    (csvWriterRun Unit (some ()) false).2 = .error () ∧
    DbCmd.rollback ∉ (csvWriterRun Unit (some ()) false).1 ∧
    xmlWriterRun Unit 2 [Except.ok [[(srcS, JVal.vint 1)]], Except.ok []] false true =
      ([.beginTx, .declareCur, .fetchCmd 2, .fetchCmd 2, .closeCur, .commit],
        .ok ()) := by
  refine ⟨rfl, by decide, rfl, by decide, rfl⟩

/-- C3 (amended): the XML, JSON and Parquet writers open a transaction
with a server-side cursor; when every fetch succeeds they close the
cursor and commit; when a fetch errors they roll back and propagate that
original error, and a failing rollback is suppressed (the run's outcome
is identical whether or not the rollback fails).  The CSV writer is the
exception: a single streamed query, no transaction, no rollback, errors
propagated directly.  Sink write failures are not observed by any writer
and trigger no rollback. -/
theorem c3_transaction_discipline (Err : Type) (b : Nat)
    (script : List (Except Err (List (List (List Char × JVal)))))
    (e : Err) (rbF rbF' sF sF' : Bool) :
    ((fetchLoop Err b script).2 = .ok () →
      cursorWriterRun Err b script rbF sF =
        (.beginTx :: .declareCur :: (fetchLoop Err b script).1 ++ [.closeCur, .commit],
          .ok ())) ∧
    ((fetchLoop Err b script).2 = .error e →
      cursorWriterRun Err b script rbF sF =
        (.beginTx :: .declareCur :: (fetchLoop Err b script).1 ++ [.rollback],
          .error e)) ∧
    cursorWriterRun Err b script rbF sF = cursorWriterRun Err b script rbF' sF' ∧
    ((∀ x ∈ script, ∃ rs, x = .ok rs) → (fetchLoop Err b script).2 = .ok ()) ∧
    (∀ pre post, script = pre ++ .error e :: post →
      (∀ x ∈ pre, ∃ r rs, x = .ok (r :: rs)) →
      (fetchLoop Err b script).2 = .error e) ∧
    xmlWriterRun Err b script rbF sF = cursorWriterRun Err b script rbF sF ∧
    jsonWriterRun Err b script rbF sF = cursorWriterRun Err b script rbF sF ∧
    parquetWriterRun Err b script rbF sF =
      (.simpleQuery :: (cursorWriterRun Err b script rbF sF).1,
        (cursorWriterRun Err b script rbF sF).2) ∧
    (∀ qErr sFc, (csvWriterRun Err qErr sFc).1 = [.simpleQuery]) ∧
    (∀ sFc, (csvWriterRun Err (some e) sFc).2 = .error e) := by
  refine ⟨?_, ?_, ?_, ?_, ?_, rfl, rfl, rfl, fun _ _ => rfl, fun _ => rfl⟩
  · intro h
    simp only [cursorWriterRun, h]
  · intro h
    simp only [cursorWriterRun, h]
  · rw [cursorWriterRun, cursorWriterRun]
  · intro hok
    induction script with
    | nil => rfl
    | cons x rest ih =>
        rcases hok x (List.mem_cons_self x rest) with ⟨rs, hx⟩
        subst hx
        rcases rs with _ | ⟨r, tl⟩
        · rfl
        · have := ih (fun y hy => hok y (List.mem_cons_of_mem _ hy))
          rw [fetchLoop]
          simpa using this
  · intro pre post hs hpre
    subst hs
    induction pre with
    | nil => rfl
    | cons x rest ih =>
        rcases hpre x (List.mem_cons_self x rest) with ⟨r, rs, hx⟩
        subst hx
        have := ih (fun y hy => hpre y (List.mem_cons_of_mem _ hy))
        rw [List.cons_append, fetchLoop]
        simpa using this

/-- Witness for `c3_transaction_discipline` at a concrete script with an
error in the second fetch: rollback issued, original error propagated,
outcome identical whether or not the rollback itself fails. -/
theorem c3_transaction_discipline_witness :
    cursorWriterRun Nat 2 [Except.ok [[(srcS, JVal.vint 1)]], Except.error 7] true false =
      ([.beginTx, .declareCur, .fetchCmd 2, .fetchCmd 2, .rollback], .error 7) ∧
    cursorWriterRun Nat 2 [Except.ok [[(srcS, JVal.vint 1)]], Except.error 7] true false =
      cursorWriterRun Nat 2 [Except.ok [[(srcS, JVal.vint 1)]], Except.error 7] false true := by
  have h := c3_transaction_discipline Nat 2
    [Except.ok [[(srcS, JVal.vint 1)]], Except.error 7] 7 true false false true
  have herr : (fetchLoop Nat 2 [Except.ok [[(srcS, JVal.vint 1)]], Except.error 7]).2 =
      .error 7 :=
    h.2.2.2.2.1 [Except.ok [[(srcS, JVal.vint 1)]]] [] rfl
      (by
        intro x hx
        simp at hx
        exact ⟨[(srcS, JVal.vint 1)], [], hx⟩)
  exact ⟨h.2.1 herr, h.2.2.1⟩

/-! ## Claim C7: XML rendering and escaping -/

theorem replaceChar_append (c : Char) (rep : List Char) (a b : List Char) :
    replaceChar c rep (a ++ b) = replaceChar c rep a ++ replaceChar c rep b := by
  induction a with
  | nil => rfl
  | cons x tl ih => simp [replaceChar, ih]

/-- The per-character action of the five chained replaces of `escapeXml`. -/
def escOneXml (c : Char) : List Char :=
  if c = '&' then ['&', 'a', 'm', 'p', ';']
  else if c = '<' then ['&', 'l', 't', ';']
  else if c = '>' then ['&', 'g', 't', ';']
  else if c = quoteC then ['&', 'q', 'u', 'o', 't', ';']
  else if c = aposC then ['&', 'a', 'p', 'o', 's', ';']
  else [c]

theorem escapeXml_cons (c : Char) (s : List Char) :
    escapeXml (c :: s) = escOneXml c ++ escapeXml s := by
  show escapeXml ([c] ++ s) = _
  rw [escapeXml, replaceChar_append, replaceChar_append, replaceChar_append,
    replaceChar_append, replaceChar_append]
  have hsingle :
      replaceChar aposC ['&', 'a', 'p', 'o', 's', ';']
        (replaceChar quoteC ['&', 'q', 'u', 'o', 't', ';']
          (replaceChar '>' ['&', 'g', 't', ';']
            (replaceChar '<' ['&', 'l', 't', ';']
              (replaceChar '&' ['&', 'a', 'm', 'p', ';'] [c])))) = escOneXml c := by
    by_cases h1 : c = '&'
    · subst h1; decide
    · by_cases h2 : c = '<'
      · subst h2; decide
      · by_cases h3 : c = '>'
        · subst h3; decide
        · by_cases h4 : c = quoteC
          · subst h4; decide
          · by_cases h5 : c = aposC
            · subst h5; decide
            · simp [replaceChar, escOneXml, h1, h2, h3, h4, h5]
  rw [hsingle, escapeXml]

theorem escapeXml_eq_concat (s : List Char) :
    escapeXml s = (s.map escOneXml).flatten := by
  induction s with
  | nil => rfl
  | cons c tl ih => rw [escapeXml_cons, ih, List.map_cons, List.flatten_cons]

/-- The four characters that must never occur raw in escaped text. -/
def forbiddenXmlChar (c : Char) : Bool :=
  c = '<' || c = '>' || c = quoteC || c = aposC

/-- After an ampersand, the remaining text must begin with one of the
five entity tails that `escapeXml` emits. -/
def xmlEntityAt (rest : List Char) : Bool :=
  ['a', 'm', 'p', ';'].isPrefixOf rest || ['l', 't', ';'].isPrefixOf rest ||
    ['g', 't', ';'].isPrefixOf rest || ['q', 'u', 'o', 't', ';'].isPrefixOf rest ||
    ['a', 'p', 'o', 's', ';'].isPrefixOf rest

/-- Well-formed escaped text: none of `<`, `>`, quote, apostrophe occur,
and every ampersand begins one of the five entities emitted by
`escapeXml`. -/
def xmlTextOk : List Char → Bool
  | [] => true
  | c :: rest =>
      (if forbiddenXmlChar c then false
       else if c = '&' then xmlEntityAt rest
       else true) && xmlTextOk rest

theorem xmlTextOk_escOne (c : Char) (t : List Char) :
    xmlTextOk (escOneXml c ++ t) = xmlTextOk t := by
  by_cases h1 : c = '&'
  · subst h1
    show xmlTextOk (['&', 'a', 'm', 'p', ';'] ++ t) = xmlTextOk t
    simp [xmlTextOk, xmlEntityAt, forbiddenXmlChar, quoteC, aposC]
  · by_cases h2 : c = '<'
    · subst h2
      show xmlTextOk (['&', 'l', 't', ';'] ++ t) = xmlTextOk t
      simp [xmlTextOk, xmlEntityAt, forbiddenXmlChar, quoteC, aposC]
    · by_cases h3 : c = '>'
      · subst h3
        show xmlTextOk (['&', 'g', 't', ';'] ++ t) = xmlTextOk t
        simp [xmlTextOk, xmlEntityAt, forbiddenXmlChar, quoteC, aposC]
      · by_cases h4 : c = quoteC
        · subst h4
          show xmlTextOk (['&', 'q', 'u', 'o', 't', ';'] ++ t) = xmlTextOk t
          simp [xmlTextOk, xmlEntityAt, forbiddenXmlChar, quoteC, aposC]
        · by_cases h5 : c = aposC
          · subst h5
            show xmlTextOk (['&', 'a', 'p', 'o', 's', ';'] ++ t) = xmlTextOk t
            simp [xmlTextOk, xmlEntityAt, forbiddenXmlChar, quoteC, aposC]
          · have hesc : escOneXml c = [c] := by
              simp [escOneXml, h1, h2, h3, h4, h5]
            rw [hesc, List.singleton_append]
            simp [xmlTextOk, forbiddenXmlChar, h1, h2, h3, h4, h5]

/-- Every ampersand that `xmlTextOk` accepts was introduced by the
escape; the escaped form of any scalar text is well-formed. -/
theorem xmlTextOk_escapeXml (s : List Char) : xmlTextOk (escapeXml s) = true := by
  rw [escapeXml_eq_concat]
  induction s with
  | nil => rfl
  | cons c tl ih =>
      rw [List.map_cons, List.flatten_cons, xmlTextOk_escOne]
      exact ih

/-- C7 counterexample: the claim's "every scalar leaf value is
text-escaped" fails on timestamp columns.  A timestamp is a scalar in
the spec's value taxonomy, but the driver delivers it as a `Date`
object, which in `buildXmlRecord` takes the `typeof === 'object'`
branch into `objectToXml`, whose `Object.entries` on a `Date` is empty:
the column renders as an empty element `<t></t>` — not the escaped text
of the value (two distinct timestamps render identically, so the value
is lost), and not a self-closing null element either. -/
theorem c7_counterexample :
    xmlFieldR tgtT (some (.rdate 0)) = openTag tgtT ++ closeTag tgtT ∧
    xmlFieldR tgtT (some (.rdate 0)) = xmlFieldR tgtT (some (.rdate 86400000)) ∧
    xmlFieldR tgtT (some (.rdate 0)) ≠ selfCloseTag tgtT ∧
    buildXmlRecordR [⟨srcS, tgtT⟩] [(srcS, .rdate 0)] =
      openTag ['r', 'e', 'c', 'o', 'r', 'd'] ++ (openTag tgtT ++ closeTag tgtT)
        ++ closeTag ['r', 'e', 'c', 'o', 'r', 'd'] := by
  refine ⟨rfl, rfl, by decide, by decide⟩

/-- C7 (amended): in the XML writer, a null or absent column renders as
a self-closing element; a nested object renders as one nested element
per key (null-valued keys self-closing, scalar keys as escaped text
elements); a nested array renders as repeated `item` elements; a
boolean, integer or string scalar leaf is passed through `escapeXml`,
whose output never contains a raw `<`, `>`, quote or apostrophe and in
which every `&` starts an entity — but a timestamp (`Date`) value falls
into the object branch and renders as an empty element, its value
dropped rather than text-escaped. -/
theorem c7_xml_rendering :
    (∀ t : List Char, xmlFieldR t none = selfCloseTag t) ∧
    (∀ t : List Char, xmlFieldR t (some (.rv .vnull)) = selfCloseTag t) ∧
    (∀ (t : List Char) (kvs : JObj),
      xmlFieldR t (some (.rv (.vobj kvs))) = openTag t ++ xmlEntries kvs ++ closeTag t) ∧
    (∀ (k : List Char) (tl : JObj),
      xmlEntries (.ocons k .vnull tl) = selfCloseTag k ++ xmlEntries tl) ∧
    (∀ (k s : List Char) (tl : JObj),
      xmlEntries (.ocons k (.vstr s) tl) =
        openTag k ++ escapeXml s ++ closeTag k ++ xmlEntries tl) ∧
    (∀ (t : List Char) (xs : JArr),
      xmlFieldR t (some (.rv (.varr xs))) = openTag t ++ xmlItems xs ++ closeTag t) ∧
    (∀ (s : List Char) (tl : JArr),
      xmlItems (.acons (.vstr s) tl) =
        openTag ['i', 't', 'e', 'm'] ++ escapeXml s ++ closeTag ['i', 't', 'e', 'm']
          ++ xmlItems tl) ∧
    (∀ (t s : List Char),
      xmlFieldR t (some (.rv (.vstr s))) = openTag t ++ escapeXml s ++ closeTag t) ∧
    (∀ (t : List Char) (n : Int),
      xmlFieldR t (some (.rv (.vint n))) =
        openTag t ++ escapeXml (intChars n) ++ closeTag t) ∧
    (∀ (t : List Char) (b : Bool),
      xmlFieldR t (some (.rv (.vbool b))) =
        openTag t ++ escapeXml (jsStringScalar (.vbool b)) ++ closeTag t) ∧
    (∀ (t : List Char) (ms : Int),
      xmlFieldR t (some (.rdate ms)) = openTag t ++ closeTag t) ∧
    (∀ (t : List Char) (v : JVal), xmlFieldR t (some (.rv v)) = xmlField t (some v)) ∧
    (∀ (cm : List ColumnMapping) (row : List (List Char × RVal)),
      buildXmlRecordR cm row =
        openTag ['r', 'e', 'c', 'o', 'r', 'd']
          ++ (cm.map (fun c => xmlFieldR c.target (rowGet row c.source))).flatten
          ++ closeTag ['r', 'e', 'c', 'o', 'r', 'd']) ∧
    (∀ s : List Char, xmlTextOk (escapeXml s) = true) := by
  refine ⟨fun _ => rfl, fun _ => rfl, fun _ _ => rfl, fun _ _ => by simp [xmlEntries],
    fun _ _ _ => by simp [xmlEntries, jsStringScalar], fun _ _ => rfl,
    fun _ _ => by simp [xmlItems, openTag, jsStringScalar], fun _ _ => rfl, fun _ _ => rfl,
    fun _ _ => rfl, fun _ _ => rfl, ?_, fun _ _ => rfl, xmlTextOk_escapeXml⟩
  intro t v
  cases v <;> rfl

/-! ## A JSON decoder

The spec's round-trip property speaks of decoding the array-of-records
output.  The decoder below is a recursive-descent reader of exactly the
(whitespace-free) output language of `JSON.stringify`; fuel bounds the
recursion depth. -/

def hexVal (c : Char) : Option Nat :=
  if 48 ≤ c.toNat ∧ c.toNat ≤ 57 then some (c.toNat - 48)
  else if 97 ≤ c.toNat ∧ c.toNat ≤ 102 then some (c.toNat - 87)
  else if 65 ≤ c.toNat ∧ c.toNat ≤ 70 then some (c.toNat - 55)
  else none

def parseDigitsAux (acc : Nat) : List Char → Nat × List Char
  | [] => (acc, [])
  | c :: rest =>
      if isDigitC c then parseDigitsAux (10 * acc + (c.toNat - 48)) rest
      else (acc, c :: rest)

/-- Read a non-empty run of decimal digits. -/
def parseNatNum : List Char → Option (Nat × List Char)
  | [] => none
  | c :: rest =>
      if isDigitC c then some (parseDigitsAux (c.toNat - 48) rest) else none

/-- Read a string body up to the closing quote, undoing the
`JSON.stringify` escapes. -/
def parseStrBody : List Char → Option (List Char × List Char)
  | [] => none
  | c :: rest =>
      if c = quoteC then some ([], rest)
      else if c = bslashC then
        match rest with
        | 'u' :: h1 :: h2 :: h3 :: h4 :: rest3 =>
            match hexVal h1, hexVal h2, hexVal h3, hexVal h4 with
            | some a, some b, some c', some d =>
                (parseStrBody rest3).map
                  (fun p => (Char.ofNat (((a * 16 + b) * 16 + c') * 16 + d) :: p.1, p.2))
            | _, _, _, _ => none
        | e :: rest2 =>
            if e = quoteC then (parseStrBody rest2).map (fun p => (quoteC :: p.1, p.2))
            else if e = bslashC then (parseStrBody rest2).map (fun p => (bslashC :: p.1, p.2))
            else if e = 'b' then (parseStrBody rest2).map (fun p => (Char.ofNat 8 :: p.1, p.2))
            else if e = 't' then (parseStrBody rest2).map (fun p => (Char.ofNat 9 :: p.1, p.2))
            else if e = 'n' then (parseStrBody rest2).map (fun p => (Char.ofNat 10 :: p.1, p.2))
            else if e = 'f' then (parseStrBody rest2).map (fun p => (Char.ofNat 12 :: p.1, p.2))
            else if e = 'r' then (parseStrBody rest2).map (fun p => (Char.ofNat 13 :: p.1, p.2))
            else none
        | [] => none
      else (parseStrBody rest).map (fun p => (c :: p.1, p.2))

mutual
/-- Read one JSON value. -/
def parseVal : Nat → List Char → Option (JVal × List Char)
  | 0, _ => none
  | f + 1, cs =>
      match cs with
      | [] => none
      | c :: r =>
          if c = 'n' then
            match r with
            | 'u' :: 'l' :: 'l' :: r2 => some (.vnull, r2)
            | _ => none
          else if c = 't' then
            match r with
            | 'r' :: 'u' :: 'e' :: r2 => some (.vbool true, r2)
            | _ => none
          else if c = 'f' then
            match r with
            | 'a' :: 'l' :: 's' :: 'e' :: r2 => some (.vbool false, r2)
            | _ => none
          else if c = '-' then
            match parseNatNum r with
            | some (n, r2) => some (.vint (-(n : Int)), r2)
            | none => none
          else if isDigitC c then
            some (.vint ((parseDigitsAux (c.toNat - 48) r).1 : Int),
              (parseDigitsAux (c.toNat - 48) r).2)
          else if c = quoteC then
            match parseStrBody r with
            | some (s, r2) => some (.vstr s, r2)
            | none => none
          else if c = '[' then
            match r with
            | ']' :: r2 => some (.varr .anil, r2)
            | _ =>
                match parseElems f r with
                | some (xs, ']' :: r2) => some (.varr xs, r2)
                | _ => none
          else if c = lbraceC then
            match r with
            | [] => none
            | c2 :: r2 =>
                if c2 = rbraceC then some (.vobj .onil, r2)
                else
                  match parseMembers f (c2 :: r2) with
                  | some (kvs, c3 :: r4) =>
                      if c3 = rbraceC then some (.vobj kvs, r4) else none
                  | _ => none
          else none

/-- Read a non-empty comma-separated element list. -/
def parseElems : Nat → List Char → Option (JArr × List Char)
  | 0, _ => none
  | f + 1, cs =>
      match parseVal f cs with
      | some (v, ',' :: r2) =>
          match parseElems f r2 with
          | some (vs, r3) => some (.acons v vs, r3)
          | none => none
      | some (v, r) => some (.acons v .anil, r)
      | none => none

/-- Read a non-empty comma-separated member list. -/
def parseMembers : Nat → List Char → Option (JObj × List Char)
  | 0, _ => none
  | f + 1, cs =>
      match cs with
      | [] => none
      | c :: r =>
          if c = quoteC then
            match parseStrBody r with
            | some (k, ':' :: r3) =>
                match parseVal f r3 with
                | some (v, ',' :: r5) =>
                    match parseMembers f r5 with
                    | some (kvs, r6) => some (.ocons k v kvs, r6)
                    | none => none
                | some (v, r4) => some (.ocons k v .onil, r4)
                | none => none
            | _ => none
          else none
end

/-- Decode a complete JSON document (no trailing bytes). -/
def parseJson (cs : List Char) : Option JVal :=
  match parseVal (cs.length + 1) cs with
  | some (v, []) => some v
  | _ => none

/-! Size measures used for the decoder's fuel accounting. -/

mutual
def sizeJ : JVal → Nat
  | .vnull => 1
  | .vbool _ => 1
  | .vint _ => 1
  | .vstr _ => 1
  | .varr xs => 1 + sizeA xs
  | .vobj kvs => 1 + sizeO kvs

def sizeA : JArr → Nat
  | .anil => 0
  | .acons v tl => 1 + sizeJ v + sizeA tl

def sizeO : JObj → Nat
  | .onil => 0
  | .ocons _ v tl => 1 + sizeJ v + sizeO tl
end

def headNotDigit : List Char → Bool
  | [] => true
  | c :: _ => !isDigitC c

def headNotComma : List Char → Bool
  | [] => true
  | c :: _ => !(c = ',')

/-! ## Digit-string lemmas -/

theorem natCharsAux_stable : ∀ n f, n + 1 ≤ f → natCharsAux f n = natCharsAux (n + 1) n := by
  intro n
  induction n using Nat.strong_induction_on with
  | _ n ih =>
    intro f hf
    match f, hf with
    | f' + 1, hf =>
      rw [natCharsAux]
      conv_rhs => rw [natCharsAux]
      by_cases h10 : n < 10
      · simp [h10]
      · have hd : n / 10 < n := Nat.div_lt_self (by omega) (by omega)
        simp only [h10, if_false]
        rw [ih (n / 10) hd f' (by omega), ih (n / 10) hd n (by omega)]

/-- The usual recursion for decimal digits. -/
theorem natChars_rec (n : Nat) :
    natChars n =
      if n < 10 then [digitChar n] else natChars (n / 10) ++ [digitChar (n % 10)] := by
  rw [natChars, natCharsAux]
  by_cases h10 : n < 10
  · simp [h10]
  · have hd : n / 10 < n := Nat.div_lt_self (by omega) (by omega)
    simp only [h10, if_false]
    rw [natCharsAux_stable (n / 10) n (by omega)]
    rfl

theorem digitChar_isDigit : ∀ d, d < 10 → isDigitC (digitChar d) = true := by decide

theorem digitChar_toNat : ∀ d, d < 10 → (digitChar d).toNat = 48 + d := by decide

theorem natChars_all_digits (n : Nat) : ∀ c ∈ natChars n, isDigitC c = true := by
  induction n using Nat.strong_induction_on with
  | _ n ih =>
    rw [natChars_rec]
    by_cases h10 : n < 10
    · simp only [h10, if_true, List.mem_singleton]
      intro c hc
      subst hc
      exact digitChar_isDigit n h10
    · have hd : n / 10 < n := Nat.div_lt_self (by omega) (by omega)
      simp only [h10, if_false, List.mem_append, List.mem_singleton]
      intro c hc
      rcases hc with hc | hc
      · exact ih (n / 10) hd c hc
      · subst hc
        exact digitChar_isDigit (n % 10) (Nat.mod_lt n (by omega))

theorem natChars_ne_nil (n : Nat) : natChars n ≠ [] := by
  rw [natChars_rec]
  by_cases h10 : n < 10 <;> simp [h10]

theorem natChars_foldl (n : Nat) : ∀ acc,
    (natChars n).foldl (fun a c => 10 * a + (c.toNat - 48)) acc =
      acc * 10 ^ (natChars n).length + n := by
  induction n using Nat.strong_induction_on with
  | _ n ih =>
    intro acc
    rw [natChars_rec]
    by_cases h10 : n < 10
    · simp only [h10, if_true, List.foldl_cons, List.foldl_nil, List.length_singleton]
      rw [digitChar_toNat n h10]
      omega
    · have hd : n / 10 < n := Nat.div_lt_self (by omega) (by omega)
      simp only [h10, if_false, List.foldl_append, List.foldl_cons, List.foldl_nil,
        List.length_append, List.length_singleton]
      rw [ih (n / 10) hd acc, digitChar_toNat (n % 10) (Nat.mod_lt n (by omega))]
      have hdm : 10 * (n / 10) + n % 10 = n := Nat.div_add_mod n 10
      have hx : 48 + n % 10 - 48 = n % 10 := by omega
      rw [hx, pow_succ]
      calc 10 * (acc * 10 ^ (natChars (n / 10)).length + n / 10) + n % 10
          = acc * (10 ^ (natChars (n / 10)).length * 10) + (10 * (n / 10) + n % 10) := by
            ring
        _ = acc * (10 ^ (natChars (n / 10)).length * 10) + n := by rw [hdm]

theorem parseDigitsAux_append :
    ∀ (ds : List Char) (acc : Nat) (rest : List Char),
      (∀ c ∈ ds, isDigitC c = true) →
      parseDigitsAux acc (ds ++ rest) =
        parseDigitsAux (ds.foldl (fun a c => 10 * a + (c.toNat - 48)) acc) rest := by
  intro ds
  induction ds with
  | nil => intro acc rest _; rfl
  | cons d tl ih =>
      intro acc rest hds
      have hd : isDigitC d = true := hds d (List.mem_cons_self d tl)
      rw [List.cons_append, parseDigitsAux, if_pos hd, List.foldl_cons]
      exact ih _ rest (fun c hc => hds c (List.mem_cons_of_mem d hc))

theorem parseDigitsAux_stop (acc : Nat) (rest : List Char)
    (h : headNotDigit rest = true) : parseDigitsAux acc rest = (acc, rest) := by
  cases rest with
  | nil => rfl
  | cons c r =>
      have : isDigitC c = false := by
        simpa [headNotDigit] using h
      rw [parseDigitsAux, if_neg (by simp [this])]

theorem parseNatNum_natChars (n : Nat) (rest : List Char)
    (h : headNotDigit rest = true) :
    parseNatNum (natChars n ++ rest) = some (n, rest) := by
  rcases hsh : natChars n with _ | ⟨c0, tl⟩
  · exact absurd hsh (natChars_ne_nil n)
  · have hall := natChars_all_digits n
    rw [hsh] at hall
    have hc0 : isDigitC c0 = true := hall c0 (List.mem_cons_self c0 tl)
    have htl : ∀ c ∈ tl, isDigitC c = true :=
      fun c hc => hall c (List.mem_cons_of_mem c0 hc)
    rw [List.cons_append, parseNatNum, if_pos hc0,
      parseDigitsAux_append tl _ rest htl, parseDigitsAux_stop _ rest h]
    have hfold := natChars_foldl n 0
    rw [hsh] at hfold
    simp only [List.foldl_cons] at hfold
    have : tl.foldl (fun a c => 10 * a + (c.toNat - 48)) (c0.toNat - 48) = n := by
      have h0 : (10 * 0 + (c0.toNat - 48)) = c0.toNat - 48 := by omega
      rw [h0] at hfold
      simpa using hfold
    rw [this]

/-! ## String escape round trip -/

theorem hexVal_hexDigitChar : ∀ m, m < 16 → hexVal (hexDigitChar m) = some m := by decide

theorem parseStrBody_ser : ∀ (s rest : List Char),
    parseStrBody (serStrBody s ++ quoteC :: rest) = some (s, rest) := by
  intro s
  induction s with
  | nil =>
      intro rest
      rw [serStrBody, List.nil_append, parseStrBody.eq_def]
      simp
  | cons c s' ih =>
      intro rest
      rw [serStrBody, List.append_assoc]
      by_cases h1 : c = quoteC
      · subst h1
        have he : escJsonChar quoteC = [bslashC, quoteC] := by
          rw [escJsonChar, if_pos rfl]
        rw [he]
        simp only [List.cons_append, List.nil_append]
        simp [parseStrBody, quoteC, bslashC]
        exact ih rest
      · by_cases h2 : c = bslashC
        · subst h2
          have he : escJsonChar bslashC = [bslashC, bslashC] := by
            rw [escJsonChar, if_neg (by decide), if_pos rfl]
          rw [he]
          simp only [List.cons_append, List.nil_append]
          simp [parseStrBody, quoteC, bslashC]
          exact ih rest
        · by_cases h3 : c = Char.ofNat 8
          · subst h3
            have he : escJsonChar (Char.ofNat 8) = [bslashC, 'b'] := by decide
            rw [he]
            simp only [List.cons_append, List.nil_append]
            simp [parseStrBody, quoteC, bslashC]
            exact ih rest
          · by_cases h4 : c = Char.ofNat 9
            · subst h4
              have he : escJsonChar (Char.ofNat 9) = [bslashC, 't'] := by decide
              rw [he]
              simp only [List.cons_append, List.nil_append]
              simp [parseStrBody, quoteC, bslashC]
              exact ih rest
            · by_cases h5 : c = Char.ofNat 10
              · subst h5
                have he : escJsonChar (Char.ofNat 10) = [bslashC, 'n'] := by decide
                rw [he]
                simp only [List.cons_append, List.nil_append]
                simp [parseStrBody, quoteC, bslashC]
                exact ih rest
              · by_cases h6 : c = Char.ofNat 12
                · subst h6
                  have he : escJsonChar (Char.ofNat 12) = [bslashC, 'f'] := by decide
                  rw [he]
                  simp only [List.cons_append, List.nil_append]
                  simp [parseStrBody, quoteC, bslashC]
                  exact ih rest
                · by_cases h7 : c = Char.ofNat 13
                  · subst h7
                    have he : escJsonChar (Char.ofNat 13) = [bslashC, 'r'] := by decide
                    rw [he]
                    simp only [List.cons_append, List.nil_append]
                    simp [parseStrBody, quoteC, bslashC]
                    exact ih rest
                  · by_cases h8 : c.toNat < 32
                    · have he : escJsonChar c =
                          [bslashC, 'u', '0', '0', hexDigitChar (c.toNat / 16),
                            hexDigitChar (c.toNat % 16)] := by
                        rw [escJsonChar, if_neg h1, if_neg h2, if_neg h3, if_neg h4,
                          if_neg h5, if_neg h6, if_neg h7, if_pos h8]
                      rw [he]
                      simp only [List.cons_append, List.nil_append]
                      have hx1 : hexVal '0' = some 0 := by decide
                      have hx2 : hexVal (hexDigitChar (c.toNat / 16)) = some (c.toNat / 16) :=
                        hexVal_hexDigitChar _ (by omega)
                      have hx3 : hexVal (hexDigitChar (c.toNat % 16)) = some (c.toNat % 16) :=
                        hexVal_hexDigitChar _ (Nat.mod_lt _ (by omega))
                      have hch : Char.ofNat (((0 * 16 + 0) * 16 + c.toNat / 16) * 16 +
                          c.toNat % 16) = c := by
                        have hval : ((0 * 16 + 0) * 16 + c.toNat / 16) * 16 + c.toNat % 16 =
                            c.toNat := by
                          have := Nat.div_add_mod c.toNat 16
                          omega
                        rw [hval, Char.ofNat_toNat]
                      simp [parseStrBody, quoteC, bslashC, hx1, hx2, hx3, hch]
                      refine ⟨ih rest, ?_⟩
                      have hval : c.toNat / 16 * 16 + c.toNat % 16 = c.toNat := by
                        have := Nat.div_add_mod c.toNat 16
                        omega
                      rw [hval, Char.ofNat_toNat]
                    · have he : escJsonChar c = [c] := by
                        rw [escJsonChar, if_neg h1, if_neg h2, if_neg h3, if_neg h4,
                          if_neg h5, if_neg h6, if_neg h7, if_neg h8]
                      rw [he]
                      simp only [List.cons_append, List.nil_append]
                      rw [parseStrBody.eq_def]
                      simp only [if_neg h1, if_neg h2]
                      simp [ih rest]

/-! ## Size bounds for the decoder fuel -/

theorem sizeJ_pos : ∀ v : JVal, 1 ≤ sizeJ v := by
  intro v
  cases v <;> simp [sizeJ]

theorem sizeA_pos_of_ne (xs : JArr) (h : xs ≠ .anil) : 1 ≤ sizeA xs := by
  cases xs with
  | anil => exact absurd rfl h
  | acons x tl => simp [sizeA]; omega

theorem sizeO_pos_of_ne (kvs : JObj) (h : kvs ≠ .onil) : 1 ≤ sizeO kvs := by
  cases kvs with
  | onil => exact absurd rfl h
  | ocons k v tl => simp [sizeO]; omega

theorem intChars_ne_nil (n : Int) : intChars n ≠ [] := by
  rw [intChars]
  split
  · simp
  · exact natChars_ne_nil _

mutual
theorem sizeJ_le_len : ∀ v : JVal, sizeJ v ≤ (jsonSer v).length
  | .vnull => by simp [sizeJ, jsonSer]
  | .vbool b => by cases b <;> simp [sizeJ, jsonSer]
  | .vint n => by
      have h := intChars_ne_nil n
      have : 1 ≤ (intChars n).length := List.length_pos.mpr h
      simpa [sizeJ, jsonSer] using this
  | .vstr s => by simp [sizeJ, jsonSer, serStr]
  | .varr xs => by
      have h := sizeA_le_len xs
      show 1 + sizeA xs ≤ ('[' :: serElems xs ++ [']']).length
      simp only [List.cons_append, List.length_cons, List.length_append,
        List.length_singleton]
      omega
  | .vobj kvs => by
      have h := sizeO_le_len kvs
      show 1 + sizeO kvs ≤ (lbraceC :: serMembers kvs ++ [rbraceC]).length
      simp only [List.cons_append, List.length_cons, List.length_append,
        List.length_singleton]
      omega

theorem sizeA_le_len : ∀ xs : JArr, sizeA xs ≤ (serElems xs).length + 1
  | .anil => by simp [sizeA, serElems]
  | .acons x .anil => by
      have h := sizeJ_le_len x
      show 1 + sizeJ x + sizeA .anil ≤ (jsonSer x).length + 1
      simp only [sizeA]
      omega
  | .acons x (.acons y tl) => by
      have h1 := sizeJ_le_len x
      have h2 := sizeA_le_len (.acons y tl)
      show 1 + sizeJ x + sizeA (.acons y tl) ≤
        (jsonSer x ++ ',' :: serElems (.acons y tl)).length + 1
      simp only [List.length_append, List.length_cons]
      omega

theorem sizeO_le_len : ∀ kvs : JObj, sizeO kvs ≤ (serMembers kvs).length + 1
  | .onil => by simp [sizeO, serMembers]
  | .ocons k v .onil => by
      have h := sizeJ_le_len v
      show 1 + sizeJ v + sizeO .onil ≤ (serStr k ++ ':' :: jsonSer v).length + 1
      simp only [sizeO, List.length_append, List.length_cons]
      omega
  | .ocons k v (.ocons k2 v2 tl) => by
      have h1 := sizeJ_le_len v
      have h2 := sizeO_le_len (.ocons k2 v2 tl)
      show 1 + sizeJ v + sizeO (.ocons k2 v2 tl) ≤
        ((serStr k ++ ':' :: jsonSer v) ++ ',' :: serMembers (.ocons k2 v2 tl)).length + 1
      simp only [List.length_append, List.length_cons]
      omega
end

/-! ## Head-character facts used to disambiguate the decoder -/

theorem isDigit_ne_chars (c : Char) (h : isDigitC c = true) :
    ¬c = 'n' ∧ ¬c = 't' ∧ ¬c = 'f' ∧ ¬c = '-' ∧ ¬c = quoteC ∧ ¬c = '[' ∧
      ¬c = lbraceC ∧ ¬c = ']' ∧ ¬c = rbraceC ∧ ¬c = ',' := by
  refine ⟨?_, ?_, ?_, ?_, ?_, ?_, ?_, ?_, ?_, ?_⟩ <;>
    (intro hc; subst hc; exact absurd h (by decide))

/-- Every serialized value starts with a character that is not a
closing bracket, closing brace or comma. -/
theorem jsonSer_cons_shape (v : JVal) :
    ∃ c r, jsonSer v = c :: r ∧ ¬c = ']' ∧ ¬c = rbraceC ∧ ¬c = ',' := by
  cases v with
  | vnull => exact ⟨'n', _, rfl, by decide, by decide, by decide⟩
  | vbool b =>
      cases b
      · exact ⟨'f', _, rfl, by decide, by decide, by decide⟩
      · exact ⟨'t', _, rfl, by decide, by decide, by decide⟩
  | vint n =>
      show ∃ c r, intChars n = c :: r ∧ _
      rw [intChars]
      by_cases hneg : n < 0
      · rw [if_pos hneg]
        exact ⟨'-', _, rfl, by decide, by decide, by decide⟩
      · rw [if_neg hneg]
        rcases hsh : natChars n.toNat with _ | ⟨c0, tl⟩
        · exact absurd hsh (natChars_ne_nil _)
        · have hd : isDigitC c0 = true := by
            have := natChars_all_digits n.toNat
            rw [hsh] at this
            exact this c0 (List.mem_cons_self c0 tl)
          have hne := isDigit_ne_chars c0 hd
          exact ⟨c0, tl, rfl, hne.2.2.2.2.2.2.2.1, hne.2.2.2.2.2.2.2.2.1,
            hne.2.2.2.2.2.2.2.2.2⟩
  | vstr s => exact ⟨quoteC, _, rfl, by decide, by decide, by decide⟩
  | varr xs => exact ⟨'[', _, rfl, by decide, by decide, by decide⟩
  | vobj kvs => exact ⟨lbraceC, _, rfl, by decide, by decide, by decide⟩

/-! ## Decoder round trip -/

theorem headNotDigit_cons (c : Char) (t : List Char) (h : isDigitC c = false) :
    headNotDigit (c :: t) = true := by simp [headNotDigit, h]

theorem headNotComma_cons (c : Char) (t : List Char) (h : ¬c = ',') :
    headNotComma (c :: t) = true := by simp [headNotComma, h]

theorem parse_ser_all : ∀ f : Nat,
    (∀ (v : JVal) (rest : List Char), sizeJ v ≤ f → headNotDigit rest = true →
      parseVal f (jsonSer v ++ rest) = some (v, rest)) ∧
    (∀ (xs : JArr) (rest : List Char), xs ≠ .anil → sizeA xs ≤ f →
      headNotDigit rest = true → headNotComma rest = true →
      parseElems f (serElems xs ++ rest) = some (xs, rest)) ∧
    (∀ (kvs : JObj) (rest : List Char), kvs ≠ .onil → sizeO kvs ≤ f →
      headNotDigit rest = true → headNotComma rest = true →
      parseMembers f (serMembers kvs ++ rest) = some (kvs, rest)) := by
  intro f
  induction f using Nat.strong_induction_on with
  | _ f ih =>
    cases f with
    | zero =>
        refine ⟨?_, ?_, ?_⟩
        · intro v rest hs _
          exact absurd hs (by have := sizeJ_pos v; omega)
        · intro xs rest hne hs _ _
          exact absurd hs (by have := sizeA_pos_of_ne xs hne; omega)
        · intro kvs rest hne hs _ _
          exact absurd hs (by have := sizeO_pos_of_ne kvs hne; omega)
    | succ f' =>
        obtain ⟨ihV, ihE, ihM⟩ := ih f' (Nat.lt_succ_self f')
        refine ⟨?_, ?_, ?_⟩
        · intro v rest hs hnd
          cases v with
          | vnull =>
              show parseVal (f' + 1) (['n', 'u', 'l', 'l'] ++ rest) = some (.vnull, rest)
              simp [parseVal]
          | vbool b =>
              cases b
              · show parseVal (f' + 1) (['f', 'a', 'l', 's', 'e'] ++ rest) =
                  some (.vbool false, rest)
                simp [parseVal]
              · show parseVal (f' + 1) (['t', 'r', 'u', 'e'] ++ rest) =
                  some (.vbool true, rest)
                simp [parseVal]
          | vint n =>
              show parseVal (f' + 1) (intChars n ++ rest) = some (.vint n, rest)
              rw [intChars]
              by_cases hneg : n < 0
              · rw [if_pos hneg, List.cons_append]
                have hp := parseNatNum_natChars n.natAbs rest hnd
                simp only [parseVal]
                rw [if_neg (by decide), if_neg (by decide), if_neg (by decide),
                  if_pos trivial, hp]
                show some (JVal.vint (-((n.natAbs : Nat) : Int)), rest) =
                  some (JVal.vint n, rest)
                have hneg2 : -((n.natAbs : Nat) : Int) = n := by omega
                rw [hneg2]
              · rw [if_neg hneg]
                rcases hsh : natChars n.toNat with _ | ⟨c0, tl⟩
                · exact absurd hsh (natChars_ne_nil _)
                · have hall := natChars_all_digits n.toNat
                  rw [hsh] at hall
                  have hd : isDigitC c0 = true := hall c0 (List.mem_cons_self _ _)
                  have hne := isDigit_ne_chars c0 hd
                  rw [List.cons_append]
                  simp only [parseVal]
                  rw [if_neg hne.1, if_neg hne.2.1, if_neg hne.2.2.1,
                    if_neg hne.2.2.2.1, if_pos hd]
                  rw [parseDigitsAux_append tl _ rest
                      (fun c hc => hall c (List.mem_cons_of_mem _ hc)),
                    parseDigitsAux_stop _ rest hnd]
                  have hfold := natChars_foldl n.toNat 0
                  rw [hsh] at hfold
                  simp only [List.foldl_cons] at hfold
                  have h0 : 10 * 0 + (c0.toNat - 48) = c0.toNat - 48 := by omega
                  rw [h0] at hfold
                  simp only [Nat.zero_mul, Nat.zero_add] at hfold
                  rw [hfold]
                  have : ((n.toNat : Nat) : Int) = n := Int.toNat_of_nonneg (by omega)
                  rw [this]
          | vstr s =>
              show parseVal (f' + 1) (serStr s ++ rest) = some (.vstr s, rest)
              rw [serStr]
              have hshape : (quoteC :: serStrBody s ++ [quoteC]) ++ rest =
                  quoteC :: (serStrBody s ++ quoteC :: rest) := by simp
              rw [hshape]
              simp only [parseVal]
              rw [if_neg (by decide), if_neg (by decide), if_neg (by decide),
                if_neg (by decide), if_neg (by decide), if_pos trivial,
                parseStrBody_ser s rest]
          | varr xs =>
              cases xs with
              | anil =>
                  show parseVal (f' + 1) (('[' :: serElems .anil ++ [']']) ++ rest) =
                    some (.varr .anil, rest)
                  simp [parseVal, serElems]
                  rw [if_neg (by decide), if_neg (by decide)]
              | acons x tl =>
                  show parseVal (f' + 1)
                      (('[' :: serElems (.acons x tl) ++ [']']) ++ rest) =
                    some (.varr (.acons x tl), rest)
                  have hre : ('[' :: serElems (.acons x tl) ++ [']']) ++ rest =
                      '[' :: (serElems (.acons x tl) ++ ']' :: rest) := by simp
                  rw [hre]
                  simp only [parseVal]
                  rw [if_neg (by decide), if_neg (by decide), if_neg (by decide),
                    if_neg (by decide), if_neg (by decide), if_neg (by decide),
                    if_pos trivial]
                  have hsz : sizeA (.acons x tl) ≤ f' := by
                    simp only [sizeJ] at hs
                    omega
                  have hE := ihE (.acons x tl) (']' :: rest) (by simp) hsz
                    (headNotDigit_cons _ _ (by decide)) (headNotComma_cons _ _ (by decide))
                  obtain ⟨c0, r0, hser, hb1, hb2, hb3⟩ := jsonSer_cons_shape x
                  have hSM : ∃ S, serElems (.acons x tl) = c0 :: S := by
                    cases tl with
                    | anil => exact ⟨r0, by rw [show serElems (.acons x .anil) =
                        jsonSer x from rfl, hser]⟩
                    | acons y tl2 =>
                        refine ⟨r0 ++ ',' :: serElems (.acons y tl2), ?_⟩
                        rw [show serElems (.acons x (.acons y tl2)) =
                          jsonSer x ++ ',' :: serElems (.acons y tl2) from rfl, hser]
                        simp
                  obtain ⟨S, hS⟩ := hSM
                  split
                  · rename_i r2 heq
                    rw [hS] at heq
                    simp only [List.cons_append, List.cons.injEq] at heq
                    exact absurd heq.1 hb1
                  · rw [hE]
                    rfl
          | vobj kvs =>
              cases kvs with
              | onil =>
                  show parseVal (f' + 1)
                      ((lbraceC :: serMembers .onil ++ [rbraceC]) ++ rest) =
                    some (.vobj .onil, rest)
                  simp only [serMembers, List.nil_append, List.cons_append]
                  simp only [parseVal]
                  rw [if_neg (by decide), if_neg (by decide), if_neg (by decide),
                    if_neg (by decide), if_neg (by decide), if_neg (by decide),
                    if_neg (by decide), if_pos trivial]
                  rw [if_pos trivial]
              | ocons k v tl =>
                  show parseVal (f' + 1)
                      ((lbraceC :: serMembers (.ocons k v tl) ++ [rbraceC]) ++ rest) =
                    some (.vobj (.ocons k v tl), rest)
                  have hre : (lbraceC :: serMembers (.ocons k v tl) ++ [rbraceC]) ++ rest =
                      lbraceC :: (serMembers (.ocons k v tl) ++ rbraceC :: rest) := by simp
                  rw [hre]
                  simp only [parseVal]
                  rw [if_neg (by decide), if_neg (by decide), if_neg (by decide),
                    if_neg (by decide), if_neg (by decide), if_neg (by decide),
                    if_neg (by decide), if_pos trivial]
                  have hsz : sizeO (.ocons k v tl) ≤ f' := by
                    simp only [sizeJ] at hs
                    omega
                  have hM := ihM (.ocons k v tl) (rbraceC :: rest) (by simp) hsz
                    (headNotDigit_cons _ _ (by decide)) (headNotComma_cons _ _ (by decide))
                  have hSM : ∃ S, serMembers (.ocons k v tl) = quoteC :: S := by
                    cases tl with
                    | onil =>
                        refine ⟨serStrBody k ++ [quoteC] ++ ':' :: jsonSer v, ?_⟩
                        rw [show serMembers (.ocons k v .onil) =
                          serStr k ++ ':' :: jsonSer v from rfl, serStr]
                        simp
                    | ocons k2 v2 tl2 =>
                        refine ⟨serStrBody k ++ [quoteC] ++ ':' :: jsonSer v ++
                          ',' :: serMembers (.ocons k2 v2 tl2), ?_⟩
                        rw [show serMembers (.ocons k v (.ocons k2 v2 tl2)) =
                          (serStr k ++ ':' :: jsonSer v) ++
                            ',' :: serMembers (.ocons k2 v2 tl2) from rfl, serStr]
                        simp
                  obtain ⟨S, hS⟩ := hSM
                  rw [hS, List.cons_append]
                  simp only [show ¬(quoteC = rbraceC) from by decide, if_false]
                  rw [← List.cons_append, ← hS, hM]
                  simp
        · intro xs rest hne hs hnd hnc
          cases xs with
          | anil => exact absurd rfl hne
          | acons x tl =>
              cases tl with
              | anil =>
                  show parseElems (f' + 1) (serElems (.acons x .anil) ++ rest) =
                    some (.acons x .anil, rest)
                  have hsx : sizeJ x ≤ f' := by
                    simp only [sizeA] at hs
                    omega
                  have hv := ihV x rest hsx hnd
                  simp only [parseElems]
                  rw [show serElems (.acons x .anil) = jsonSer x from rfl, hv]
                  split
                  · rename_i v r2 heq
                    simp only [Option.some.injEq, Prod.mk.injEq] at heq
                    rw [heq.2] at hnc
                    simp [headNotComma] at hnc
                  · rename_i hne2
                    simp only [Option.some.injEq, Prod.mk.injEq] at hne2
                    rw [← hne2.1, ← hne2.2]
                  · rename_i heq
                    simp at heq
              | acons y tl2 =>
                  show parseElems (f' + 1) (serElems (.acons x (.acons y tl2)) ++ rest) =
                    some (.acons x (.acons y tl2), rest)
                  have hsx : sizeJ x ≤ f' := by
                    simp only [sizeA] at hs
                    omega
                  have hsz : sizeA (.acons y tl2) ≤ f' := by
                    simp only [sizeA] at hs ⊢
                    have := sizeJ_pos x
                    omega
                  have hre : serElems (.acons x (.acons y tl2)) ++ rest =
                      jsonSer x ++ ',' :: (serElems (.acons y tl2) ++ rest) := by
                    rw [show serElems (.acons x (.acons y tl2)) =
                      jsonSer x ++ ',' :: serElems (.acons y tl2) from rfl]
                    simp
                  rw [hre]
                  have hv := ihV x (',' :: (serElems (.acons y tl2) ++ rest)) hsx
                    (headNotDigit_cons _ _ (by decide))
                  have hE2 := ihE (.acons y tl2) rest (by simp) hsz hnd hnc
                  simp only [parseElems]
                  rw [hv]
                  simp [hE2]
        · intro kvs rest hne hs hnd hnc
          cases kvs with
          | onil => exact absurd rfl hne
          | ocons k v tl =>
              cases tl with
              | onil =>
                  show parseMembers (f' + 1) (serMembers (.ocons k v .onil) ++ rest) =
                    some (.ocons k v .onil, rest)
                  have hsv : sizeJ v ≤ f' := by
                    simp only [sizeO] at hs
                    omega
                  have hre : serMembers (.ocons k v .onil) ++ rest =
                      quoteC :: (serStrBody k ++ quoteC :: (':' :: (jsonSer v ++ rest))) := by
                    rw [show serMembers (.ocons k v .onil) =
                      serStr k ++ ':' :: jsonSer v from rfl, serStr]
                    simp
                  rw [hre]
                  simp only [parseMembers]
                  rw [if_pos trivial, parseStrBody_ser k (':' :: (jsonSer v ++ rest))]
                  have hv := ihV v rest hsv hnd
                  simp only [hv]
                  split
                  · rename_i v2 r5 heq
                    simp only [Option.some.injEq, Prod.mk.injEq] at heq
                    rw [heq.2] at hnc
                    simp [headNotComma] at hnc
                  · rename_i hne2
                    simp only [Option.some.injEq, Prod.mk.injEq] at hne2
                    rw [← hne2.1, ← hne2.2]
                  · rename_i heq
                    simp at heq
              | ocons k2 v2 tl2 =>
                  show parseMembers (f' + 1)
                      (serMembers (.ocons k v (.ocons k2 v2 tl2)) ++ rest) =
                    some (.ocons k v (.ocons k2 v2 tl2), rest)
                  have hsv : sizeJ v ≤ f' := by
                    simp only [sizeO] at hs
                    omega
                  have hsz : sizeO (.ocons k2 v2 tl2) ≤ f' := by
                    simp only [sizeO] at hs ⊢
                    have := sizeJ_pos v
                    omega
                  have hre : serMembers (.ocons k v (.ocons k2 v2 tl2)) ++ rest =
                      quoteC :: (serStrBody k ++ quoteC ::
                        (':' :: (jsonSer v ++
                          ',' :: (serMembers (.ocons k2 v2 tl2) ++ rest)))) := by
                    rw [show serMembers (.ocons k v (.ocons k2 v2 tl2)) =
                      (serStr k ++ ':' :: jsonSer v) ++
                        ',' :: serMembers (.ocons k2 v2 tl2) from rfl, serStr]
                    simp
                  rw [hre]
                  simp only [parseMembers]
                  rw [if_pos trivial, parseStrBody_ser k _]
                  have hv := ihV v (',' :: (serMembers (.ocons k2 v2 tl2) ++ rest)) hsv
                    (headNotDigit_cons _ _ (by decide))
                  have hM2 := ihM (.ocons k2 v2 tl2) rest (by simp) hsz hnd hnc
                  simp only [hv]
                  simp [hM2]

/-! ## Claims C6 and C9 -/

/-- Decoding inverts serialization for every value. -/
theorem parseJson_jsonSer (v : JVal) : parseJson (jsonSer v) = some v := by
  rw [parseJson]
  have h := (parse_ser_all ((jsonSer v).length + 1)).1 v []
    (by have := sizeJ_le_len v; omega) (by simp [headNotDigit])
  rw [List.append_nil] at h
  rw [h]

/-- C6: serializing any nested structure (objects, arrays, scalars) with
the JSON writer's `JSON.stringify` and decoding the output yields the
original value exactly — object keys, array order and scalar types
preserved, no stringification of nested values; and the writer's
per-row record is exactly the serialization of the record object. -/
theorem c6_json_roundtrip :
    (∀ v : JVal, parseJson (jsonSer v) = some v) ∧
    (∀ (cm : List ColumnMapping) (row : List (List Char × JVal)),
      jsonRecord cm row =
        jsonSer (.vobj (toJObj (definedFields
          (cm.map (fun c => (c.target, rowGet row c.source)))))) ∧
      parseJson (jsonRecord cm row) =
        some (.vobj (toJObj (definedFields
          (cm.map (fun c => (c.target, rowGet row c.source))))))) :=
  ⟨parseJson_jsonSer, fun _ _ => ⟨rfl, parseJson_jsonSer _⟩⟩

/-- A decimal literal as the driver delivers it: non-empty, digits and
dots only. -/
def isDecimalStr (s : List Char) : Bool :=
  !s.isEmpty && s.all (fun c => isDigitC c || c = '.')

theorem decChar_props (c : Char) (h : (isDigitC c || (c = '.')) = true) :
    ¬c = ',' ∧ ¬c = quoteC ∧ ¬c = '\n' ∧ escOneXml c = [c] := by
  rcases (Bool.or_eq_true _ _).mp h with hd | hdot
  · have h1 : ¬c = ',' := fun hc => by subst hc; exact absurd hd (by decide)
    have h2 : ¬c = quoteC := fun hc => by subst hc; exact absurd hd (by decide)
    have h3 : ¬c = '\n' := fun hc => by subst hc; exact absurd hd (by decide)
    have h4 : ¬c = '&' := fun hc => by subst hc; exact absurd hd (by decide)
    have h5 : ¬c = '<' := fun hc => by subst hc; exact absurd hd (by decide)
    have h6 : ¬c = '>' := fun hc => by subst hc; exact absurd hd (by decide)
    have h7 : ¬c = aposC := fun hc => by subst hc; exact absurd hd (by decide)
    exact ⟨h1, h2, h3, by simp [escOneXml, h4, h5, h6, h2, h7]⟩
  · have hc : c = '.' := by simpa using hdot
    subst hc
    exact ⟨by decide, by decide, by decide, by decide⟩

theorem flatten_map_singleton (f : Char → List Char) :
    ∀ s : List Char, (∀ c ∈ s, f c = [c]) → (s.map f).flatten = s := by
  intro s
  induction s with
  | nil => intro _; rfl
  | cons c tl ih =>
      intro h
      rw [List.map_cons, List.flatten_cons, h c (List.mem_cons_self _ _),
        ih (fun x hx => h x (List.mem_cons_of_mem _ hx))]
      rfl

/-- C9: a decimal value (carried by the driver as a fixed-point digit
string, never a binary float) survives every text writer with its exact
digits: the CSV cell is the digit string itself (unquoted, unchanged),
the XML escape leaves it untouched, `String(value)` is the identity on
it, and the JSON writer's output decodes back to the very same string. -/
theorem c9_decimal_exact (s : List Char) (h : isDecimalStr s = true) :
    csvEscapeCell (csvCellRaw (some (.vstr s))) = s ∧
    escapeXml s = s ∧
    jsStringScalar (.vstr s) = s ∧
    parseJson (jsonSer (.vstr s)) = some (.vstr s) := by
  have hall : ∀ c ∈ s, (isDigitC c || (c = '.')) = true := by
    have := (Bool.and_eq_true _ _).mp h
    exact fun c hc => (List.all_eq_true.mp this.2) c hc
  have hnc : ¬(',' ∈ s) := fun hm => (decChar_props ',' (hall ',' hm)).1 rfl
  have hnq : ¬(quoteC ∈ s) := fun hm => (decChar_props quoteC (hall quoteC hm)).2.1 rfl
  have hnn : ¬('\n' ∈ s) := fun hm => (decChar_props '\n' (hall '\n' hm)).2.2.1 rfl
  refine ⟨?_, ?_, rfl, parseJson_jsonSer _⟩
  · show csvEscapeCell s = s
    rw [csvEscapeCell, if_neg]
    intro hcond
    rcases (Bool.or_eq_true _ _).mp hcond with hor | hn
    · rcases (Bool.or_eq_true _ _).mp hor with h1 | h2
      · exact hnc (by simpa using h1)
      · exact hnq (by simpa using h2)
    · exact hnn (by simpa using hn)
  · rw [escapeXml_eq_concat]
    exact flatten_map_singleton _ s (fun c hc => (decChar_props c (hall c hc)).2.2.2)

/-- Witness for `c9_decimal_exact` at the spec's example `1234.5000`. -/
theorem c9_decimal_exact_witness :
    csvEscapeCell (csvCellRaw (some (.vstr
        ['1', '2', '3', '4', '.', '5', '0', '0', '0']))) =
      ['1', '2', '3', '4', '.', '5', '0', '0', '0'] ∧
    escapeXml ['1', '2', '3', '4', '.', '5', '0', '0', '0'] =
      ['1', '2', '3', '4', '.', '5', '0', '0', '0'] ∧
    parseJson (jsonSer (.vstr ['1', '2', '3', '4', '.', '5', '0', '0', '0'])) =
      some (.vstr ['1', '2', '3', '4', '.', '5', '0', '0', '0']) := by
  have h := c9_decimal_exact ['1', '2', '3', '4', '.', '5', '0', '0', '0'] (by decide)
  exact ⟨h.1, h.2.1, h.2.2.2⟩

end PolyglotExport
